import Mathlib

/-!
# Verification of the matching engine, compute/latency scheduler and market ledger

Shallow embedding of the simulator core found in `src/sim/` (`types.py`,
`order_book.py`, `compute.py`, `market.py`).  Python `float` values are
modelled as exact rationals (`ℚ`), Python `int` as `ℤ`, dictionaries as
association lists, and in-place mutation as explicit state passing.
Operations that can raise are modelled in a state-passing style
`σ → σ × Except String α`, the returned state being the object state at the
moment the exception propagates (all raises in the modelled code happen
before any mutation of the raised-from structure).
-/

/- The Batteries rational-arithmetic primitives are `@[irreducible]`, which
stops `decide` from evaluating concrete book scenarios; restore default
reducibility for this file. -/
attribute [local semireducible] Rat.add Rat.mul Rat.sub Rat.inv Rat.ofScientific

namespace Sim

/-- `Side(str, Enum)` from `types.py`. -/
inductive Side where
  | BUY
  | SELL
deriving DecidableEq, Repr

/-- The `Order` dataclass from `types.py` (`price` is `None` for pure market
orders). -/
structure Order where
  id : Int
  agent_id : String
  side : Side
  price : Option ℚ
  qty : Int
  ts : Int
  is_market : Bool := false
deriving DecidableEq, Repr

/-- The `Trade` value as the `Trade(...)` calls of
`OrderBook._execute_against` in `order_book.py` evidently intend to build:
the seven declared fields plus the keyword arguments `buyer_limit` and
`seller_limit` they pass.  The `Trade` dataclass *declared* in `types.py`
lacks those two fields (see `typesTradeFields` below), so in the source as
written every such call raises `TypeError` — claim C1; the faithful
raising behaviour is embedded separately by `OrderBook.place_limit_src` /
`OrderBook.place_market_src`.  The analysis code and the test-suite assume
the repaired value shape embedded here. -/
structure Trade where
  buy_order_id : Int
  sell_order_id : Int
  buy_agent_id : String
  sell_agent_id : String
  price : ℚ
  qty : Int
  ts : Int
  buyer_limit : Option ℚ
  seller_limit : Option ℚ
deriving DecidableEq, Repr

/-- Decidable equality of fallible results, for evaluating concrete
scenarios. -/
instance {ε α : Type} [DecidableEq ε] [DecidableEq α] : DecidableEq (Except ε α) :=
  fun a b =>
    match a, b with
    | .error x, .error y =>
      if h : x = y then isTrue (by rw [h])
      else isFalse (fun hh => by cases hh; exact h rfl)
    | .ok x, .ok y =>
      if h : x = y then isTrue (by rw [h])
      else isFalse (fun hh => by cases hh; exact h rfl)
    | .error _, .ok _ => isFalse (fun hh => by cases hh)
    | .ok _, .error _ => isFalse (fun hh => by cases hh)

/-- Field names of the `Trade` dataclass as declared in `src/sim/types.py`
(lines 26–34). -/
def typesTradeFields : List String :=
  ["buy_order_id", "sell_order_id", "buy_agent_id", "sell_agent_id",
   "price", "qty", "ts"]

/-- Keyword arguments passed to the `Trade(...)` constructor by
`OrderBook._execute_against` (`order_book.py`, lines 180–206). -/
def executeAgainstTradeKwargs : List String :=
  ["buy_order_id", "sell_order_id", "buy_agent_id", "sell_agent_id",
   "price", "qty", "ts", "buyer_limit", "seller_limit"]

/-- JSON keys of the per-trade record written by `Market._apply_trades`
(`market.py`, lines 180–188). -/
def tradeRecordKeys : List String :=
  ["t", "price", "qty", "buy_agent", "sell_agent", "taker_agent", "taker_side"]

/-- Python's built-in `round` on an exact value: round half to even. -/
def pyround (x : ℚ) : Int :=
  let f : Int := x.floor
  let r : ℚ := x - f
  if r < 1/2 then f
  else if 1/2 < r then f + 1
  else if f % 2 = 0 then f else f + 1

/-- The `PriceLevel` dataclass from `order_book.py`: one price and the FIFO
queue (front of the list = oldest) of resting orders at that price. -/
structure PriceLevel where
  price : ℚ
  queue : List Order
deriving DecidableEq, Repr

/-- The `OrderBook` state: the two `Dict[float, PriceLevel]` sides are
embedded as lists of levels (a dictionary keyed by the level price; the
code keeps level keys unique), plus the order-id index. -/
structure OrderBook where
  tick : ℚ
  bids : List PriceLevel
  asks : List PriceLevel
  id_index : List (Int × ℚ × Side)
deriving DecidableEq, Repr

/-- `OrderBook.__init__`. -/
def OrderBook.empty (tick_size : ℚ) : OrderBook :=
  { tick := tick_size, bids := [], asks := [], id_index := [] }

/-- `OrderBook._conform_price`: `abs(round(price/tick)*tick - price) < 1e-9`. -/
def OrderBook.conform_price (tick price : ℚ) : Bool :=
  |((pyround (price / tick) : ℚ)) * tick - price| < 1e-9

/-- Dictionary lookup `book.get(price)` on a side. -/
def findLevel (side : List PriceLevel) (p : ℚ) : Option PriceLevel :=
  side.find? (fun l => l.price = p)

/-- Dictionary deletion `del book[price]` on a side. -/
def eraseLevel : List PriceLevel → ℚ → List PriceLevel
  | [], _ => []
  | l :: ls, p => if l.price = p then ls else l :: eraseLevel ls p

/-- Replacing the (mutated-in-place) queue of the level stored at `p`. -/
def updateLevel (side : List PriceLevel) (p : ℚ) (q : List Order) : List PriceLevel :=
  side.map (fun l => if l.price = p then { l with queue := q } else l)

/-- `max(self._bids.keys())` / `min(self._asks.keys())` then indexing: the
level holding the minimum price of the side (`none` iff the side is empty). -/
def minLevel : List PriceLevel → Option PriceLevel
  | [] => none
  | l :: ls =>
    some (match minLevel ls with
      | none => l
      | some b => if l.price ≤ b.price then l else b)

/-- The level holding the maximum price of the side. -/
def maxLevel : List PriceLevel → Option PriceLevel
  | [] => none
  | l :: ls =>
    some (match maxLevel ls with
      | none => l
      | some b => if b.price ≤ l.price then l else b)

/-- `OrderBook._best_bid`. -/
def OrderBook.best_bid (ob : OrderBook) : Option PriceLevel := maxLevel ob.bids

/-- `OrderBook._best_ask`. -/
def OrderBook.best_ask (ob : OrderBook) : Option PriceLevel := minLevel ob.asks

/-- `OrderBook.top_of_book`. -/
def OrderBook.top_of_book (ob : OrderBook) : Option ℚ × Option ℚ :=
  (ob.best_bid.map (·.price), ob.best_ask.map (·.price))

/-- `OrderBook.depth_at_level`. -/
def OrderBook.depth_at_level (ob : OrderBook) (price : ℚ) (side : Side) : Int :=
  let book := match side with | .BUY => ob.bids | .SELL => ob.asks
  match findLevel book price with
  | none => 0
  | some lvl => (lvl.queue.map (·.qty)).sum

/-- The trade record the `Trade(...)` call inside `_execute_against` intends
to build for one consumed chunk of the resting order at the front of the
level queue.  In the source as written this construction raises
`TypeError` (C1); this definition and everything built on it embed the
engine with that slip repaired. -/
def mkTrade (take_side : Side) (price : ℚ) (traded : Int) (ts : Int)
    (taker_agent : String) (taker_limit : Option ℚ) (resting : Order) : Trade :=
  match take_side with
  | .BUY =>
    { buy_order_id := -1, sell_order_id := resting.id,
      buy_agent_id := taker_agent, sell_agent_id := resting.agent_id,
      price := price, qty := traded, ts := ts,
      buyer_limit := taker_limit, seller_limit := resting.price }
  | .SELL =>
    { buy_order_id := resting.id, sell_order_id := -1,
      buy_agent_id := resting.agent_id, sell_agent_id := taker_agent,
      price := price, qty := traded, ts := ts,
      buyer_limit := resting.price, seller_limit := taker_limit }

/-- The `while remaining > 0 and level.queue` loop of
`OrderBook._execute_against`, acting on the level queue — with the C1
`Trade` slip repaired, so that trade construction succeeds (the source as
written raises `TypeError` at the first `mkTrade` position; see
`sweepAsksSrc`).  Returns
(trades, new queue, ids of fully-filled resting orders popped from the
id index, final remaining).  In the partial-fill branch
`traded = min(remaining, resting.qty) < resting.qty` forces
`traded = remaining`, so the loop condition `remaining > 0` fails right
after the front order is reduced in place and the loop exits — the branch
returns directly. -/
def execQueue (price : ℚ) (queue : List Order) (remaining : Int) (take_side : Side)
    (ts : Int) (taker_agent : String) (taker_limit : Option ℚ) :
    List Trade × List Order × List Int × Int :=
  match queue with
  | [] => ([], [], [], remaining)
  | resting :: rest =>
    if remaining ≤ 0 then ([], resting :: rest, [], remaining)
    else
      let traded := min remaining resting.qty
      let tr := mkTrade take_side price traded ts taker_agent taker_limit resting
      if traded = resting.qty then
        let (trs, q', ids, rem') :=
          execQueue price rest (remaining - traded) take_side ts taker_agent taker_limit
        (tr :: trs, q', resting.id :: ids, rem')
      else
        ([tr], { resting with qty := resting.qty - traded } :: rest, [], remaining - traded)

/-- `OrderBook._execute_against` on a whole level: trades, the mutated level,
popped ids, and the fill `qty - remaining` it returns. -/
def executeAgainst (level : PriceLevel) (qty : Int) (take_side : Side) (ts : Int)
    (taker_agent : String) (taker_limit : Option ℚ) :
    List Trade × PriceLevel × List Int × Int :=
  let (trs, q', ids, rem') :=
    execQueue level.price level.queue qty take_side ts taker_agent taker_limit
  (trs, { level with queue := q' }, ids, qty - rem')

/-- Order-id index helpers: `self._id_index` is a `Dict[int, (float, Side)]`. -/
def idxLookup (idx : List (Int × ℚ × Side)) (k : Int) : Option (ℚ × Side) :=
  (idx.find? (fun e => e.1 = k)).map (·.2)

/-- Dictionary assignment `self._id_index[id] = v`. -/
def idxSet : List (Int × ℚ × Side) → Int → ℚ × Side → List (Int × ℚ × Side)
  | [], k, v => [(k, v)]
  | e :: rest, k, v => if e.1 = k then (k, v) :: rest else e :: idxSet rest k v

/-- `self._id_index.pop(id, None)`. -/
def idxErase : List (Int × ℚ × Side) → Int → List (Int × ℚ × Side)
  | [], _ => []
  | e :: rest, k => if e.1 = k then rest else e :: idxErase rest k

/-- The ids popped by `_execute_against` during one placement, applied to the
index (the pops happen as matching proceeds; collecting them and erasing
afterwards is equivalent since nothing reads the index in between). -/
def eraseIds (idx : List (Int × ℚ × Side)) (ids : List Int) : List (Int × ℚ × Side) :=
  ids.foldl idxErase idx

/-- The `break` test of the BUY matching loop in `place_limit`
(`if order.price < best_ask.price: break`); always false for the unbounded
`place_market` loop. -/
def buyBreaks (limit_price : Option ℚ) (best_ask_price : ℚ) : Bool :=
  match limit_price with
  | some p => decide (p < best_ask_price)
  | none => false

/-- The `break` test of the SELL matching loop in `place_limit`
(`if order.price > best_bid.price: break`); always false for
`place_market`. -/
def sellBreaks (limit_price : Option ℚ) (best_bid_price : ℚ) : Bool :=
  match limit_price with
  | some p => decide (best_bid_price < p)
  | none => false

/-- The `while remaining > 0 and self._asks` loop shared by the BUY branches of
`place_limit` (with `limit_price = some p`, which also serves as the
`taker_limit` passed to `_execute_against`) and `place_market`
(`limit_price = none`, no price bound).  Returns (trades, final remaining,
new ask side, popped ids).  When `_execute_against` leaves the level queue
nonempty it also leaves `remaining ≤ 0` (see `execQueue_exit`), so the loop
condition fails and the loop exits: that branch returns directly.  The
`fuel` argument only makes the recursion structural: every iteration that
continues has deleted one emptied price level, so the initial level count
(with which `matchAsks` calls it) is always sufficient, and at fuel 0 the
side is necessarily `[]`, which is also the `minLevel = none` exit. -/
def matchAsksGo (limit_price : Option ℚ) (ts : Int) (taker_agent : String) :
    Nat → List PriceLevel → Int → List Trade × Int × List PriceLevel × List Int
  | 0, asks, remaining => ([], remaining, asks, [])
  | fuel+1, asks, remaining =>
    if remaining ≤ 0 then ([], remaining, asks, [])
    else
      match minLevel asks with
      | none => ([], remaining, asks, [])
      | some best_ask =>
        if buyBreaks limit_price best_ask.price then
          ([], remaining, asks, [])
        else
          let r := executeAgainst best_ask remaining .BUY ts taker_agent limit_price
          if r.2.1.queue.isEmpty then
            let rec2 := matchAsksGo limit_price ts taker_agent fuel
              (eraseLevel asks best_ask.price) (remaining - r.2.2.2)
            (r.1 ++ rec2.1, rec2.2.1, rec2.2.2.1, r.2.2.1 ++ rec2.2.2.2)
          else
            (r.1, remaining - r.2.2.2, updateLevel asks best_ask.price r.2.1.queue,
             r.2.2.1)

/-- The ask-side matching loop at its call sites. -/
def matchAsks (asks : List PriceLevel) (remaining : Int) (limit_price : Option ℚ)
    (ts : Int) (taker_agent : String) :
    List Trade × Int × List PriceLevel × List Int :=
  matchAsksGo limit_price ts taker_agent asks.length asks remaining

/-- The `while remaining > 0 and self._bids` loop shared by the SELL branches
of `place_limit` and `place_market` (mirror of `matchAsksGo`). -/
def matchBidsGo (limit_price : Option ℚ) (ts : Int) (taker_agent : String) :
    Nat → List PriceLevel → Int → List Trade × Int × List PriceLevel × List Int
  | 0, bids, remaining => ([], remaining, bids, [])
  | fuel+1, bids, remaining =>
    if remaining ≤ 0 then ([], remaining, bids, [])
    else
      match maxLevel bids with
      | none => ([], remaining, bids, [])
      | some best_bid =>
        if sellBreaks limit_price best_bid.price then
          ([], remaining, bids, [])
        else
          let r := executeAgainst best_bid remaining .SELL ts taker_agent limit_price
          if r.2.1.queue.isEmpty then
            let rec2 := matchBidsGo limit_price ts taker_agent fuel
              (eraseLevel bids best_bid.price) (remaining - r.2.2.2)
            (r.1 ++ rec2.1, rec2.2.1, rec2.2.2.1, r.2.2.1 ++ rec2.2.2.2)
          else
            (r.1, remaining - r.2.2.2, updateLevel bids best_bid.price r.2.1.queue,
             r.2.2.1)

/-- The bid-side matching loop at its call sites. -/
def matchBids (bids : List PriceLevel) (remaining : Int) (limit_price : Option ℚ)
    (ts : Int) (taker_agent : String) :
    List Trade × Int × List PriceLevel × List Int :=
  matchBidsGo limit_price ts taker_agent bids.length bids remaining

/-- Appending the residual resting order at its price level (existing level
`lvl.queue.append(resting)`, otherwise a fresh level is stored at that key). -/
def addResting (side : List PriceLevel) (p : ℚ) (o : Order) : List PriceLevel :=
  match findLevel side p with
  | none => side ++ [⟨p, [o]⟩]
  | some _ =>
    side.map (fun l => if l.price = p then { l with queue := l.queue ++ [o] } else l)

/-- `OrderBook.place_limit` with the C1 `Trade` slip repaired (the engine
the spec describes; `place_limit_src` embeds the source exactly as
written).  The raises modelled here (market-order misuse, the
`assert order.price is not None`, tick misalignment) all happen before any
book mutation, so the error cases return the book unchanged. -/
def OrderBook.place_limit (ob : OrderBook) (o : Order) :
    OrderBook × Except String (List Trade) :=
  if o.is_market then (ob, .error "place_limit requires limit order")
  else
    match o.price with
    | none => (ob, .error "AssertionError")
    | some p =>
      if OrderBook.conform_price ob.tick p = false then
        (ob, .error "price not aligned with tick size")
      else
        let matched := match o.side with
          | .BUY =>
            let r := matchAsks ob.asks o.qty (some p) o.ts o.agent_id
            (r.1, r.2.1, { ob with asks := r.2.2.1,
                                   id_index := eraseIds ob.id_index r.2.2.2 })
          | .SELL =>
            let r := matchBids ob.bids o.qty (some p) o.ts o.agent_id
            (r.1, r.2.1, { ob with bids := r.2.2.1,
                                   id_index := eraseIds ob.id_index r.2.2.2 })
        let (trades, remaining, ob1) := matched
        if 0 < remaining then
          let resting : Order :=
            { id := o.id, agent_id := o.agent_id, side := o.side, price := some p,
              qty := remaining, ts := o.ts, is_market := false }
          let ob2 := match o.side with
            | .BUY => { ob1 with bids := addResting ob1.bids p resting }
            | .SELL => { ob1 with asks := addResting ob1.asks p resting }
          ({ ob2 with id_index := idxSet ob2.id_index o.id (p, o.side) }, .ok trades)
        else
          (ob1, .ok trades)

/-- `OrderBook.place_market` with the C1 `Trade` slip repaired
(`place_market_src` embeds the source exactly as written). -/
def OrderBook.place_market (ob : OrderBook) (o : Order) :
    OrderBook × Except String (List Trade) :=
  if o.is_market = false then (ob, .error "place_market requires market order")
  else
    match o.side with
    | .BUY =>
      let r := matchAsks ob.asks o.qty none o.ts o.agent_id
      ({ ob with asks := r.2.2.1, id_index := eraseIds ob.id_index r.2.2.2 }, .ok r.1)
    | .SELL =>
      let r := matchBids ob.bids o.qty none o.ts o.agent_id
      ({ ob with bids := r.2.2.1, id_index := eraseIds ob.id_index r.2.2.2 }, .ok r.1)

/-- The queue rebuild in `OrderBook.cancel`: drop the first order with the
given id, keeping everything else in FIFO order. -/
def removeFirstById : List Order → Int → List Order × Bool
  | [], _ => ([], false)
  | o :: rest, oid =>
    if o.id = oid then (rest, true)
    else
      let r := removeFirstById rest oid
      (o :: r.1, r.2)

/-- `OrderBook.cancel`. -/
def OrderBook.cancel (ob : OrderBook) (order_id : Int) : OrderBook × Bool :=
  match idxLookup ob.id_index order_id with
  | none => (ob, false)
  | some (price, side) =>
    let book := match side with | .BUY => ob.bids | .SELL => ob.asks
    match findLevel book price with
    | none => (ob, false)
    | some lvl =>
      let r := removeFirstById lvl.queue order_id
      let book' := if r.1.isEmpty then eraseLevel book price
                   else updateLevel book price r.1
      let ob1 := match side with
        | .BUY => { ob with bids := book' }
        | .SELL => { ob with asks := book' }
      if r.2 then ({ ob1 with id_index := idxErase ob1.id_index order_id }, true)
      else (ob1, false)

/-! ### The matching engine exactly as the source executes it

Because of the C1 slip (`types.py`'s `Trade` has no `buyer_limit` /
`seller_limit` fields), the source as written raises `TypeError` at the
first `Trade(...)` call of `_execute_against` — that is, as soon as the
matching loop enters a level whose queue is nonempty with `remaining > 0`,
and before any queue, index or ledger mutation.  A best level with an
*empty* queue (never present in books the program itself builds) produces
no trade, is deleted, and the loop continues.  The definitions below embed
this faithful-to-source behaviour; `place_limit` / `place_market` above
embed the evidently intended engine with that slip repaired. -/

/-- The BUY matching loop of the source: delete empty best levels until the
loop exits (bound hit, side exhausted, or quantity ≤ 0) or a nonempty best
level raises `TypeError`.  Returns the ask side after those deletions and
whether the loop raised.  Fuel as in `matchAsksGo`. -/
def sweepAsksSrc (limit_price : Option ℚ) :
    Nat → List PriceLevel → Int → List PriceLevel × Bool
  | 0, asks, _ => (asks, false)
  | fuel+1, asks, remaining =>
    if remaining ≤ 0 then (asks, false)
    else
      match minLevel asks with
      | none => (asks, false)
      | some best_ask =>
        if buyBreaks limit_price best_ask.price then (asks, false)
        else if best_ask.queue.isEmpty then
          sweepAsksSrc limit_price fuel (eraseLevel asks best_ask.price) remaining
        else (asks, true)

/-- The SELL matching loop of the source (mirror of `sweepAsksSrc`). -/
def sweepBidsSrc (limit_price : Option ℚ) :
    Nat → List PriceLevel → Int → List PriceLevel × Bool
  | 0, bids, _ => (bids, false)
  | fuel+1, bids, remaining =>
    if remaining ≤ 0 then (bids, false)
    else
      match maxLevel bids with
      | none => (bids, false)
      | some best_bid =>
        if sellBreaks limit_price best_bid.price then (bids, false)
        else if best_bid.queue.isEmpty then
          sweepBidsSrc limit_price fuel (eraseLevel bids best_bid.price) remaining
        else (bids, true)

/-- `OrderBook.place_limit` exactly as the source behaves with the C1 slip:
a placement whose matching loop reaches a nonempty opposite level raises
`TypeError` (only already-empty levels having been deleted, and `filled`
still 0); a placement that never constructs a trade leaves the loop with
`remaining = order.qty` unchanged and rests exactly as `place_limit`
does. -/
def OrderBook.place_limit_src (ob : OrderBook) (o : Order) :
    OrderBook × Except String (List Trade) :=
  if o.is_market then (ob, .error "place_limit requires limit order")
  else
    match o.price with
    | none => (ob, .error "AssertionError")
    | some p =>
      if OrderBook.conform_price ob.tick p = false then
        (ob, .error "price not aligned with tick size")
      else
        match o.side with
        | .BUY =>
          let r := sweepAsksSrc (some p) ob.asks.length ob.asks o.qty
          let ob1 := { ob with asks := r.1 }
          if r.2 then (ob1, .error "TypeError")
          else if 0 < o.qty then
            let resting : Order :=
              { id := o.id, agent_id := o.agent_id, side := o.side,
                price := some p, qty := o.qty, ts := o.ts, is_market := false }
            ({ ob1 with bids := addResting ob1.bids p resting,
                        id_index := idxSet ob1.id_index o.id (p, o.side) },
             .ok [])
          else (ob1, .ok [])
        | .SELL =>
          let r := sweepBidsSrc (some p) ob.bids.length ob.bids o.qty
          let ob1 := { ob with bids := r.1 }
          if r.2 then (ob1, .error "TypeError")
          else if 0 < o.qty then
            let resting : Order :=
              { id := o.id, agent_id := o.agent_id, side := o.side,
                price := some p, qty := o.qty, ts := o.ts, is_market := false }
            ({ ob1 with asks := addResting ob1.asks p resting,
                        id_index := idxSet ob1.id_index o.id (p, o.side) },
             .ok [])
          else (ob1, .ok [])

/-- `OrderBook.place_market` exactly as the source behaves with the C1 slip:
it raises `TypeError` as soon as a nonempty opposite level is reached, and
otherwise returns no trades. -/
def OrderBook.place_market_src (ob : OrderBook) (o : Order) :
    OrderBook × Except String (List Trade) :=
  if o.is_market = false then (ob, .error "place_market requires market order")
  else
    match o.side with
    | .BUY =>
      let r := sweepAsksSrc none ob.asks.length ob.asks o.qty
      ({ ob with asks := r.1 },
       if r.2 then .error "TypeError" else .ok [])
    | .SELL =>
      let r := sweepBidsSrc none ob.bids.length ob.bids o.qty
      ({ ob with bids := r.1 },
       if r.2 then .error "TypeError" else .ok [])

/-! ## Compute / latency scheduler (`compute.py`) -/

/-- The `ComputeBudget` dataclass. -/
structure ComputeBudget where
  capacity_tokens : Int := 100
  refill_tokens : Int := 100
deriving DecidableEq, Repr

/-- The `LatencyModel` dataclass. -/
structure LatencyModel where
  base_ms : ℚ := 1/2
  ms_per_token : ℚ := 1/10
  jitter_ms : ℚ := 0
deriving DecidableEq, Repr

/-- The `AgentComputeState` dataclass. -/
structure AgentComputeState where
  tokens : Int
  budget : ComputeBudget
  latency : LatencyModel
deriving DecidableEq, Repr

/-- `AgentComputeState.refill`. -/
def AgentComputeState.refill (st : AgentComputeState) : AgentComputeState :=
  { st with tokens := min st.budget.capacity_tokens (st.tokens + st.budget.refill_tokens) }

/-- `AgentComputeState.consume`: returns `(used, degraded)` plus the state
after the in-place token mutation. -/
def AgentComputeState.consume (st : AgentComputeState) (requested : Int) :
    Int × Bool × AgentComputeState :=
  if requested ≤ st.tokens then
    (requested, false, { st with tokens := st.tokens - requested })
  else
    (0, true, st)

/-- The `ScheduledIntent` dataclass (`order=True` on `(arrival_t, seq)` only;
every other field carries `compare=False`). -/
structure ScheduledIntent where
  arrival_t : Int
  seq : Int
  intent_type : String
  agent_id : String
  side : Option Side := none
  price : Option ℚ := none
  qty : Option Int := none
  tokens_used : Int := 0
  latency_ms : ℚ := 0
deriving DecidableEq, Repr

/-- The comparison key order of `ScheduledIntent` (lexicographic on
`(arrival_t, seq)`), the order the heap in `LatencyQueue` pops by. -/
def intentLE (a b : ScheduledIntent) : Prop :=
  a.arrival_t < b.arrival_t ∨ (a.arrival_t = b.arrival_t ∧ a.seq ≤ b.seq)

/-- Strict key order: strictly earlier arrival, or equal arrival and strictly
smaller sequence number. -/
def intentLT (a b : ScheduledIntent) : Prop :=
  a.arrival_t < b.arrival_t ∨ (a.arrival_t = b.arrival_t ∧ a.seq < b.seq)

instance : DecidableRel intentLE := fun _ _ => by unfold intentLE; infer_instance

instance : DecidableRel intentLT := fun _ _ => by unfold intentLT; infer_instance

/-- Insertion into the pending list keeping it sorted by `intentLE`.  The
Python `heapq` min-heap is embedded by its sorted contents: on the distinct
`(arrival_t, seq)` keys produced by `next_seq`, `heappush`/`heappop`
realize exactly ascending key order, which this sorted list realizes. -/
def insertIntent (x : ScheduledIntent) : List ScheduledIntent → List ScheduledIntent
  | [] => [x]
  | y :: ys => if intentLE x y then x :: y :: ys else y :: insertIntent x ys

/-- `LatencyQueue`: `_pq` is the heap contents (kept in ascending key order),
`_seq` the monotone sequence counter. -/
structure LatencyQueue where
  pq : List ScheduledIntent := []
  seq : Int := 0
deriving DecidableEq, Repr

/-- `LatencyQueue.push` (`heapq.heappush`). -/
def LatencyQueue.push (q : LatencyQueue) (item : ScheduledIntent) : LatencyQueue :=
  { q with pq := insertIntent item q.pq }

/-- `LatencyQueue.next_seq`. -/
def LatencyQueue.next_seq (q : LatencyQueue) : Int × LatencyQueue :=
  (q.seq + 1, { q with seq := q.seq + 1 })

/-- The `while self._pq and self._pq[0].arrival_t <= t: heappop` loop of
`LatencyQueue.pop_ready` on the (sorted) heap contents: pop from the front
while the front's arrival tick is due. -/
def popReadyList : List ScheduledIntent → Int → List ScheduledIntent × List ScheduledIntent
  | [], _ => ([], [])
  | x :: xs, t =>
    if x.arrival_t ≤ t then
      let r := popReadyList xs t
      (x :: r.1, r.2)
    else ([], x :: xs)

/-- `LatencyQueue.pop_ready`. -/
def LatencyQueue.pop_ready (q : LatencyQueue) (t : Int) :
    List ScheduledIntent × LatencyQueue :=
  let r := popReadyList q.pq t
  (r.1, { q with pq := r.2 })

/-! ## Market (`market.py`) -/

/-- The `AgentState` dataclass (one ledger entry). -/
structure AgentState where
  cash : ℚ := 0
  inventory : Int := 0
  last_value_price : Option ℚ := none
deriving DecidableEq, Repr

/-- The `MarketConfig` dataclass. -/
structure MarketConfig where
  tick_size : ℚ := 1/100
  fee_per_message : ℚ := 0
  fee_per_share : ℚ := 0
  tick_duration_ms : ℚ := 1
deriving DecidableEq, Repr

/-- Association-list embedding of a Python `dict` keyed by strings:
lookup of `d.get(k)` / `d[k]`. -/
def assocGet {β : Type} (l : List (String × β)) (k : String) : Option β :=
  (l.find? (fun kv => kv.1 = k)).map (·.2)

/-- Dictionary assignment `d[k] = v`: replace the existing binding, or append
a fresh one. -/
def assocSet {β : Type} : List (String × β) → String → β → List (String × β)
  | [], k, v => [(k, v)]
  | kv :: rest, k, v =>
    if kv.1 = k then (k, v) :: rest else kv :: assocSet rest k v

/-- The `Market` object state.  File logging is an external sink and carries
no simulation state, so it is not embedded; `self._rng` (a seeded
`random.Random` used only for latency jitter) is embedded as a stream of
`random()` outputs plus a cursor. -/
structure Market where
  cfg : MarketConfig
  book : OrderBook
  t : Int := 0
  agents : List (String × AgentState) := []
  next_order_id : Int := 1
  last_trade_price : Option ℚ := none
  rng_stream : Nat → ℚ := fun _ => 0
  rng_idx : Nat := 0
  compute : List (String × AgentComputeState) := []
  latq : LatencyQueue := {}
  trades_this_tick : Int := 0
  volume_this_tick : Int := 0
  messages_this_tick : Int := 0

/-- `Market.__init__`. -/
def Market.init (config : MarketConfig) (agent_ids : List String) : Market :=
  { cfg := config, book := OrderBook.empty config.tick_size,
    agents := agent_ids.map (fun a => (a, {})) }

/-- `random.Random.random()`: next value of the jitter stream. -/
def Market.random (m : Market) : ℚ × Market :=
  (m.rng_stream m.rng_idx, { m with rng_idx := m.rng_idx + 1 })

/-- `Market.set_agent_compute`. -/
def Market.set_agent_compute (m : Market) (agent_id : String)
    (budget : ComputeBudget) (latency : LatencyModel) : Market :=
  { m with compute := (assocSet m.compute agent_id
      { tokens := budget.capacity_tokens, budget := budget, latency := latency }) }

/-- `Market.begin_tick`: refill every configured compute state. -/
def Market.begin_tick (m : Market) : Market :=
  { m with compute := m.compute.map (fun kv => (kv.1, kv.2.refill)) }

/-- `Market._new_order_id`. -/
def Market.new_order_id (m : Market) : Int × Market :=
  (m.next_order_id, { m with next_order_id := m.next_order_id + 1 })

/-- `Market._charge_message_fee`: the message counter is incremented first;
`self.agents[agent_id]` then raises `KeyError` for an unregistered id,
leaving everything else untouched. -/
def Market.charge_message_fee (m : Market) (agent_id : String) :
    Market × Except String Unit :=
  let m1 := { m with messages_this_tick := m.messages_this_tick + 1 }
  match assocGet m1.agents agent_id with
  | none => (m1, .error "KeyError")
  | some st =>
    ({ m1 with agents := (assocSet m1.agents agent_id
        { st with cash := st.cash - m1.cfg.fee_per_message }) }, .ok ())

/-- `if aid not in self.agents: self.agents[aid] = AgentState()`. -/
def ensureAgent (l : List (String × AgentState)) (k : String) :
    List (String × AgentState) :=
  if (assocGet l k).isNone then assocSet l k {} else l

/-- The body of the `for tr in trades` loop of `Market._apply_trades` for a
single trade. -/
def Market.applyTradeOne (m : Market) (initiator : String) (tr : Trade) : Market :=
  let m := { m with last_trade_price := some tr.price,
                    trades_this_tick := m.trades_this_tick + 1,
                    volume_this_tick := m.volume_this_tick + tr.qty }
  let b := tr.buy_agent_id
  let s := tr.sell_agent_id
  let ag0 := ensureAgent m.agents b
  let ag1 := ensureAgent ag0 s
  let bSt := (assocGet ag1 b).getD {}
  let ag2 := assocSet ag1 b
    { bSt with inventory := bSt.inventory + tr.qty, cash := bSt.cash - tr.price * tr.qty }
  let sSt := (assocGet ag2 s).getD {}
  let ag3 := assocSet ag2 s
    { sSt with inventory := sSt.inventory - tr.qty, cash := sSt.cash + tr.price * tr.qty }
  let ag4 :=
    if b = initiator then
      let bSt' := (assocGet ag3 b).getD {}
      assocSet ag3 b { bSt' with cash := bSt'.cash - m.cfg.fee_per_share * tr.qty }
    else if s = initiator then
      let sSt' := (assocGet ag3 s).getD {}
      assocSet ag3 s { sSt' with cash := sSt'.cash - m.cfg.fee_per_share * tr.qty }
    else ag3
  { m with agents := ag4 }

/-- `Market._apply_trades` (`side`/`taker` only feed the log record). -/
def Market.apply_trades (m : Market) (initiator : String) (_side : Side)
    (trades : List Trade) (_taker : Bool := false) : Market :=
  trades.foldl (fun acc tr => acc.applyTradeOne initiator tr) m

/-- `Market.submit_limit`. -/
def Market.submit_limit (m : Market) (agent_id : String) (side : Side)
    (price : ℚ) (qty : Int) : Market × Except String (List Trade) :=
  let c := m.charge_message_fee agent_id
  match c.2 with
  | .error e => (c.1, .error e)
  | .ok _ =>
    let m1 := c.1
    let io := m1.new_order_id
    let m2 := io.2
    let order : Order := { id := io.1, agent_id := agent_id, side := side,
                           price := some price, qty := qty, ts := m2.t,
                           is_market := false }
    let r := m2.book.place_limit order
    match r.2 with
    | .error e => ({ m2 with book := r.1 }, .error e)
    | .ok trades =>
      let m3 := { m2 with book := r.1 }
      (m3.apply_trades agent_id side trades, .ok trades)

/-- `Market.submit_market`. -/
def Market.submit_market (m : Market) (agent_id : String) (side : Side)
    (qty : Int) : Market × Except String (List Trade) :=
  let c := m.charge_message_fee agent_id
  match c.2 with
  | .error e => (c.1, .error e)
  | .ok _ =>
    let m1 := c.1
    let io := m1.new_order_id
    let m2 := io.2
    let order : Order := { id := io.1, agent_id := agent_id, side := side,
                           price := none, qty := qty, ts := m2.t,
                           is_market := true }
    let r := m2.book.place_market order
    match r.2 with
    | .error e => ({ m2 with book := r.1 }, .error e)
    | .ok trades =>
      let m3 := { m2 with book := r.1 }
      (m3.apply_trades agent_id side trades true, .ok trades)

/-- `Market.cancel`. -/
def Market.cancel (m : Market) (agent_id : String) (order_id : Int) :
    Market × Except String Bool :=
  let c := m.charge_message_fee agent_id
  match c.2 with
  | .error e => (c.1, .error e)
  | .ok _ =>
    let m1 := c.1
    let r := m1.book.cancel order_id
    ({ m1 with book := r.1 }, .ok r.2)

/-- `Market.schedule_limit`. -/
def Market.schedule_limit (m : Market) (agent_id : String) (side : Side)
    (price : ℚ) (qty : Int) (tokens_requested : Int) : Market :=
  match assocGet m.compute agent_id with
  | none =>
    let arrival_t := m.t
    let sq := m.latq.next_seq
    let latq2 := sq.2.push
      { arrival_t := arrival_t, seq := sq.1, intent_type := "limit",
        agent_id := agent_id, side := some side, price := some price,
        qty := some qty, tokens_used := 0, latency_ms := 0 }
    { m with latq := latq2 }
  | some st =>
    let cr := st.consume tokens_requested
    let used := cr.1
    let degraded := cr.2.1
    let m := { m with compute := assocSet m.compute agent_id cr.2.2 }
    let latency0 := st.latency.base_ms + (used : ℚ) * st.latency.ms_per_token
    let jm : ℚ × Market :=
      if 0 < st.latency.jitter_ms then
        let rm := m.random
        (max 0 (latency0 + (rm.1 * 2 - 1) * st.latency.jitter_ms), rm.2)
      else (latency0, m)
    let latency_ms := jm.1
    let m := jm.2
    let ticks := max 1 (latency_ms / max 1e-6 m.cfg.tick_duration_ms).ceil
    let arrival_t := m.t + ticks
    let sq := m.latq.next_seq
    if degraded then { m with latq := sq.2 }
    else
      { m with latq := (sq.2.push
          { arrival_t := arrival_t, seq := sq.1, intent_type := "limit",
            agent_id := agent_id, side := some side, price := some price,
            qty := some qty, tokens_used := used, latency_ms := latency_ms }) }

/-- `Market.schedule_market`. -/
def Market.schedule_market (m : Market) (agent_id : String) (side : Side)
    (qty : Int) (tokens_requested : Int) : Market :=
  match assocGet m.compute agent_id with
  | none =>
    let arrival_t := m.t
    let sq := m.latq.next_seq
    let latq2 := sq.2.push
      { arrival_t := arrival_t, seq := sq.1, intent_type := "market",
        agent_id := agent_id, side := some side, qty := some qty,
        tokens_used := 0, latency_ms := 0 }
    { m with latq := latq2 }
  | some st =>
    let cr := st.consume tokens_requested
    let used := cr.1
    let degraded := cr.2.1
    let m := { m with compute := assocSet m.compute agent_id cr.2.2 }
    let latency0 := st.latency.base_ms + (used : ℚ) * st.latency.ms_per_token
    let jm : ℚ × Market :=
      if 0 < st.latency.jitter_ms then
        let rm := m.random
        (max 0 (latency0 + (rm.1 * 2 - 1) * st.latency.jitter_ms), rm.2)
      else (latency0, m)
    let latency_ms := jm.1
    let m := jm.2
    let ticks := max 1 (latency_ms / max 1e-6 m.cfg.tick_duration_ms).ceil
    let arrival_t := m.t + ticks
    let sq := m.latq.next_seq
    if degraded then { m with latq := sq.2 }
    else
      { m with latq := (sq.2.push
          { arrival_t := arrival_t, seq := sq.1, intent_type := "market",
            agent_id := agent_id, side := some side, qty := some qty,
            tokens_used := used, latency_ms := latency_ms }) }

/-! ## Operation sequences used by the invariant claims -/

/-- One public book operation (the error outcome of a placement leaves the
book in the state paired with the error, exactly as the propagating Python
exception does). -/
inductive BookOp where
  | limit (o : Order)
  | market (o : Order)
  | cancel (oid : Int)

/-- Apply one operation of the repaired-intent engine, keeping the
(possibly unchanged) book state. -/
def applyBookOp (ob : OrderBook) : BookOp → OrderBook
  | .limit o => (ob.place_limit o).1
  | .market o => (ob.place_market o).1
  | .cancel oid => (ob.cancel oid).1

/-- Run a sequence of repaired-intent operations from the empty book. -/
def runBookOps (tick_size : ℚ) (ops : List BookOp) : OrderBook :=
  ops.foldl applyBookOp (OrderBook.empty tick_size)

/-- Apply one operation of the faithful-to-source engine (`place_limit_src`
and `place_market_src`, which raise `TypeError` when matching would
construct a trade), keeping the book state the raise leaves behind. -/
def applyBookOpSrc (ob : OrderBook) : BookOp → OrderBook
  | .limit o => (ob.place_limit_src o).1
  | .market o => (ob.place_market_src o).1
  | .cancel oid => (ob.cancel oid).1

/-- Run a sequence of faithful-to-source operations from the empty book. -/
def runBookOpsSrc (tick_size : ℚ) (ops : List BookOp) : OrderBook :=
  ops.foldl applyBookOpSrc (OrderBook.empty tick_size)

/-- The no-crossing invariant: every resting bid price is strictly below
every resting ask price. -/
def NoCross (ob : OrderBook) : Prop :=
  ∀ b ∈ ob.bids, ∀ a ∈ ob.asks, b.price < a.price

/-- One call on an `AgentComputeState`: a `refill()` or a
`consume(requested)`. -/
inductive CEvent where
  | refill
  | consume (requested : Int)

/-- Apply one compute call (keeping the mutated state). -/
def stepCompute (st : AgentComputeState) : CEvent → AgentComputeState
  | .refill => st.refill
  | .consume r => (st.consume r).2.2

/-- Run a sequence of `refill`/`consume` calls. -/
def runCompute (st : AgentComputeState) (evs : List CEvent) : AgentComputeState :=
  evs.foldl stepCompute st

/-- Requests of a compute-call sequence are all nonnegative. -/
def RequestsNonneg (evs : List CEvent) : Prop :=
  ∀ q : Int, CEvent.consume q ∈ evs → 0 ≤ q

/-- A latency queue built by pushing the given intents in order onto a fresh
queue. -/
def pushAll (intents : List ScheduledIntent) : LatencyQueue :=
  intents.foldl (fun q it => q.push it) {}

/-! ## Association-list (dictionary) lemmas -/

theorem assocGet_assocSet_same {β : Type} (l : List (String × β)) (k : String) (v : β) :
    assocGet (assocSet l k v) k = some v := by
  induction l with
  | nil => simp [assocGet, assocSet, List.find?]
  | cons kv rest ih =>
    by_cases h : kv.1 = k
    · simp [assocSet, h, assocGet, List.find?]
    · simp only [assocSet, h, if_false]
      simpa [assocGet, List.find?, h] using ih

theorem assocGet_assocSet_ne {β : Type} (l : List (String × β)) {k k' : String}
    (v : β) (h : k' ≠ k) : assocGet (assocSet l k v) k' = assocGet l k' := by
  have hk'' : ¬ ((k : String) = k') := fun hh => h hh.symm
  induction l with
  | nil => simp [assocGet, assocSet, List.find?, hk'']
  | cons kv rest ih =>
    by_cases hk : kv.1 = k
    · have h1 : ¬ (kv.1 = k') := by rw [hk]; exact hk''
      simp [assocSet, hk, assocGet, List.find?, hk'', h1]
    · by_cases hkk : kv.1 = k'
      · simp [assocSet, hk, assocGet, List.find?, hkk, h]
      · simpa [assocSet, hk, assocGet, List.find?, hkk] using ih

theorem assocGet_ensureAgent_same (l : List (String × AgentState)) (k : String) :
    assocGet (ensureAgent l k) k = some ((assocGet l k).getD {}) := by
  unfold ensureAgent
  cases h : assocGet l k with
  | none => simp [h, assocGet_assocSet_same]
  | some st => simp [h]

theorem assocGet_ensureAgent_ne (l : List (String × AgentState)) {k k' : String}
    (h : k' ≠ k) : assocGet (ensureAgent l k) k' = assocGet l k' := by
  unfold ensureAgent
  cases hg : assocGet l k with
  | none => simp [hg, assocGet_assocSet_ne l _ h]
  | some st => simp [hg]

/-! ## Claim theorems -/

/-- **C1.** The `Trade(...)` constructor calls in `OrderBook._execute_against`
pass `buyer_limit` and `seller_limit` keyword arguments, but the `Trade`
dataclass declared in `types.py` has no such fields (so in Python every
trade construction raises `TypeError`), and the per-trade record emitted by
`Market._apply_trades` does not include `buyer_limit`/`seller_limit` keys
either — contradicting both spec sentences, the repository's own test suite
(which exercises matching) and `analysis/metrics_run.py` (which reads the
keys back from `trades.jsonl`). -/
theorem C1_trade_limit_fields_missing :
    ("buyer_limit" ∈ executeAgainstTradeKwargs ∧
     "seller_limit" ∈ executeAgainstTradeKwargs) ∧
    ("buyer_limit" ∉ typesTradeFields ∧ "seller_limit" ∉ typesTradeFields) ∧
    ("buyer_limit" ∉ tradeRecordKeys ∧ "seller_limit" ∉ tradeRecordKeys) := by
  decide

/-- **C5.** A limit order whose price is not tick-aligned fails with the
InvalidPrice error, produces no trades, and leaves the whole book — both
sides and the order-id index — unchanged. -/
theorem C5_tick_misaligned_rejected (ob : OrderBook) (o : Order) (p : ℚ)
    (hm : o.is_market = false) (hp : o.price = some p)
    (hc : OrderBook.conform_price ob.tick p = false) :
    ob.place_limit o = (ob, Except.error "price not aligned with tick size") := by
  simp [OrderBook.place_limit, hm, hp, hc]

/-- Witness for C5: the spec's own scenario — tick size `0.05`, BUY limit at
`100.03` — is rejected and the empty book stays empty. -/
theorem C5_tick_misaligned_rejected_witness :
    (OrderBook.empty (1/20)).place_limit
        { id := 1, agent_id := "a", side := Side.BUY, price := some (10003/100),
          qty := 1, ts := 1, is_market := false } =
      (OrderBook.empty (1/20), Except.error "price not aligned with tick size") :=
  C5_tick_misaligned_rejected _ _ (10003/100) rfl rfl (by decide)

/-- Token bounds and budget are preserved by one compute call with
nonnegative request (given a nonnegative refill amount). -/
theorem stepCompute_bounds (st : AgentComputeState) (ev : CEvent)
    (h0 : 0 ≤ st.tokens) (h1 : st.tokens ≤ st.budget.capacity_tokens)
    (hr : 0 ≤ st.budget.refill_tokens)
    (hq : ∀ q : Int, ev = CEvent.consume q → 0 ≤ q) :
    (0 ≤ (stepCompute st ev).tokens ∧
     (stepCompute st ev).tokens ≤ (stepCompute st ev).budget.capacity_tokens) ∧
    (stepCompute st ev).budget = st.budget := by
  cases ev with
  | refill =>
    refine ⟨⟨?_, ?_⟩, rfl⟩ <;>
      simp only [stepCompute, AgentComputeState.refill] <;> omega
  | consume q =>
    have hq' : 0 ≤ q := hq q rfl
    simp only [stepCompute, AgentComputeState.consume]
    by_cases h : q ≤ st.tokens <;> simp [h] <;> omega

/-- Token bounds after any sequence of compute calls. -/
theorem runCompute_bounds (st : AgentComputeState) (evs : List CEvent)
    (h0 : 0 ≤ st.tokens) (h1 : st.tokens ≤ st.budget.capacity_tokens)
    (hr : 0 ≤ st.budget.refill_tokens) (hevs : RequestsNonneg evs) :
    (0 ≤ (runCompute st evs).tokens ∧
     (runCompute st evs).tokens ≤ (runCompute st evs).budget.capacity_tokens) ∧
    (runCompute st evs).budget = st.budget := by
  induction evs generalizing st with
  | nil => exact ⟨⟨h0, h1⟩, rfl⟩
  | cons ev evs ih =>
    have hstep := stepCompute_bounds st ev h0 h1 hr
      (fun q hq => hevs q (hq ▸ List.mem_cons_self ev evs))
    have hbud : (stepCompute st ev).budget = st.budget := hstep.2
    have hr' : 0 ≤ (stepCompute st ev).budget.refill_tokens := by rw [hbud]; exact hr
    have h1' : (stepCompute st ev).tokens ≤ (stepCompute st ev).budget.capacity_tokens :=
      hstep.1.2
    have := ih (stepCompute st ev) hstep.1.1 h1' hr'
      (fun q hq => hevs q (List.mem_cons_of_mem _ hq))
    exact ⟨this.1, this.2.trans hbud⟩

/-- **C6 (amended).** With a nonnegative configured refill amount, tokens stay
in `[0, capacity_tokens]` under every sequence of `refill`/`consume` calls
with nonnegative requests; `consume` beyond the available tokens deducts
nothing and reports degradation, `consume` within them deducts exactly the
request — all-or-nothing. -/
theorem C6_token_bucket (st : AgentComputeState) (evs : List CEvent) (r : Int)
    (h0 : 0 ≤ st.tokens) (h1 : st.tokens ≤ st.budget.capacity_tokens)
    (hr : 0 ≤ st.budget.refill_tokens) (hevs : RequestsNonneg evs) :
    (0 ≤ (runCompute st evs).tokens ∧
     (runCompute st evs).tokens ≤ st.budget.capacity_tokens) ∧
    (st.tokens < r → st.consume r = (0, true, st)) ∧
    (r ≤ st.tokens →
      st.consume r = (r, false, { st with tokens := st.tokens - r })) := by
  refine ⟨?_, ?_, ?_⟩
  · have h := runCompute_bounds st evs h0 h1 hr hevs
    exact ⟨h.1.1, h.2 ▸ h.1.2⟩
  · intro h
    simp [AgentComputeState.consume, not_le.mpr h]
  · intro h
    simp [AgentComputeState.consume, h]

/-- Counterexample to C6 as stated: a state inside `[0, capacity]` but with a
negative configured refill amount leaves the claimed range after a single
`refill()` (`tokens = min(10, 0 + (-1)) = -1`). -/
theorem C6_counterexample :
    ¬ (0 ≤ (runCompute
        { tokens := 0,
          budget := { capacity_tokens := 10, refill_tokens := -1 },
          latency := {} } [CEvent.refill]).tokens) := by
  decide

/-- Witness for C6: capacity 5, refill 5, starting full; consume 2 then refill
then an oversized consume 7 — tokens remain in `[0, 5]`, the oversized
request degrades without deduction, the in-budget request deducts exactly. -/
theorem C6_token_bucket_witness :
    (0 ≤ (runCompute
        { tokens := 5, budget := { capacity_tokens := 5, refill_tokens := 5 },
          latency := {} }
        [CEvent.consume 2, CEvent.refill, CEvent.consume 7]).tokens ∧
     (runCompute
        { tokens := 5, budget := { capacity_tokens := 5, refill_tokens := 5 },
          latency := {} }
        [CEvent.consume 2, CEvent.refill, CEvent.consume 7]).tokens ≤ 5) ∧
    ((5 : Int) < 7 →
      AgentComputeState.consume
        { tokens := 5, budget := { capacity_tokens := 5, refill_tokens := 5 },
          latency := {} } 7 =
      (0, true,
        { tokens := 5, budget := { capacity_tokens := 5, refill_tokens := 5 },
          latency := {} })) ∧
    ((7 : Int) ≤ 5 →
      AgentComputeState.consume
        { tokens := 5, budget := { capacity_tokens := 5, refill_tokens := 5 },
          latency := {} } 7 =
      (7, false,
        { tokens := 5 - 7, budget := { capacity_tokens := 5, refill_tokens := 5 },
          latency := {} })) :=
  C6_token_bucket _ _ 7 (by decide) (by decide) (by decide)
    (by
      intro q hq
      simp only [List.mem_cons, List.not_mem_nil, or_false] at hq
      rcases hq with h | h | h
      · injection h with h1; omega
      · exact (CEvent.noConfusion h)
      · injection h with h1; omega)

/-- **C7.** A scheduled limit or market intent whose token request degrades
(request exceeds the available tokens of the configured compute profile) is
silently dropped: nothing is enqueued into the latency queue, the
participant's compute state (tokens included) is unchanged, and the order
book is untouched. -/
theorem C7_degraded_intent_dropped (m : Market) (aid : String) (side : Side)
    (price : ℚ) (qty tok : Int) (st : AgentComputeState)
    (hc : assocGet m.compute aid = some st) (hd : st.tokens < tok) :
    ((m.schedule_limit aid side price qty tok).latq.pq = m.latq.pq ∧
     assocGet (m.schedule_limit aid side price qty tok).compute aid = some st ∧
     (m.schedule_limit aid side price qty tok).book = m.book) ∧
    ((m.schedule_market aid side qty tok).latq.pq = m.latq.pq ∧
     assocGet (m.schedule_market aid side qty tok).compute aid = some st ∧
     (m.schedule_market aid side qty tok).book = m.book) := by
  have hcons : st.consume tok = (0, true, st) := by
    simp [AgentComputeState.consume, not_le.mpr hd]
  by_cases hj : 0 < st.latency.jitter_ms <;>
    simp [Market.schedule_limit, Market.schedule_market, hc, hcons, hj,
      Market.random, LatencyQueue.next_seq, assocGet_assocSet_same]

/-- Witness for C7: an agent with 5 available tokens requests 7; the latency
queue stays empty. -/
theorem C7_degraded_intent_dropped_witness :
    (((Market.init {} ["a"]).set_agent_compute "a"
        { capacity_tokens := 5, refill_tokens := 5 } {}).schedule_limit
        "a" Side.BUY 100 1 7).latq.pq = [] := by
  have h := C7_degraded_intent_dropped
    ((Market.init {} ["a"]).set_agent_compute "a"
      { capacity_tokens := 5, refill_tokens := 5 } {})
    "a" Side.BUY 100 1 7
    { tokens := 5, budget := { capacity_tokens := 5, refill_tokens := 5 },
      latency := {} }
    (by decide) (by decide)
  rw [h.1.1]
  rfl

/-- **C10.** Calling `submit_limit`, `submit_market` or `cancel` with an
agent id absent from the ledger fails with the `KeyError` raised inside
`_charge_message_fee`, before an order id is drawn and before the book is
touched: the book, the ledger and the order-id counter are all unchanged. -/
theorem C10_unregistered_agent_raises (m : Market) (aid : String) (side : Side)
    (price : ℚ) (qty oid : Int) (h : assocGet m.agents aid = none) :
    ((m.submit_limit aid side price qty).2 = Except.error "KeyError" ∧
     (m.submit_limit aid side price qty).1.book = m.book ∧
     (m.submit_limit aid side price qty).1.agents = m.agents ∧
     (m.submit_limit aid side price qty).1.next_order_id = m.next_order_id) ∧
    ((m.submit_market aid side qty).2 = Except.error "KeyError" ∧
     (m.submit_market aid side qty).1.book = m.book ∧
     (m.submit_market aid side qty).1.agents = m.agents ∧
     (m.submit_market aid side qty).1.next_order_id = m.next_order_id) ∧
    ((m.cancel aid oid).2 = Except.error "KeyError" ∧
     (m.cancel aid oid).1.book = m.book ∧
     (m.cancel aid oid).1.agents = m.agents) := by
  simp [Market.submit_limit, Market.submit_market, Market.cancel,
    Market.charge_message_fee, h]

/-- Witness for C10: submitting as the unknown agent "z" on a fresh
two-agent market errors out and leaves the book empty. -/
theorem C10_unregistered_agent_raises_witness :
    ((Market.init {} ["a", "b"]).submit_limit "z" Side.BUY 100 1).2 =
      Except.error "KeyError" ∧
    ((Market.init {} ["a", "b"]).submit_limit "z" Side.BUY 1
      1).1.book = (Market.init {} ["a", "b"]).book :=
  ⟨(C10_unregistered_agent_raises (Market.init {} ["a", "b"]) "z" Side.BUY
      100 1 0 (by decide)).1.1,
   (C10_unregistered_agent_raises (Market.init {} ["a", "b"]) "z" Side.BUY
      1 1 0 (by decide)).1.2.1⟩

/-- Counterexample to C9 as stated: with `tick_duration_ms = 1e-7` the code
divides by `max(1e-6, tick_duration_ms) = 1e-6`, so a non-degraded intent
with `latency_ms = 1` arrives `10^6` ticks later, not the
`max(1, ceil(latency_ms / tick_duration_ms)) = 10^7` the claim computes. -/
theorem C9_counterexample :
    ((((Market.init { tick_duration_ms := 1/10000000 } ["a"]).set_agent_compute
        "a" { capacity_tokens := 10, refill_tokens := 10 }
        { base_ms := 1, ms_per_token := 0, jitter_ms := 0 }).schedule_limit
        "a" Side.BUY 100 1 0).latq.pq.map (fun i => i.arrival_t) = [1000000]) ∧
    (1000000 : Int) ≠
      0 + max 1 (((1 : ℚ) + (0 : ℚ) * 0) / (1/10000000)).ceil := by
  constructor
  · decide
  · decide

/-- **C9 (amended).** For a non-degraded scheduled intent with zero jitter
*and `tick_duration_ms ≥ 1e-6`* (the code divides by
`max(1e-6, tick_duration_ms)`): `latency_ms = base_ms + used·ms_per_token`,
the enqueued intent's arrival tick is the current tick plus
`max(1, ceil(latency_ms / tick_duration_ms))`; a participant with no
configured compute profile gets arrival tick = current tick (due already at
the immediately following step). -/
theorem C9_latency_and_arrival (m : Market) (aid : String) (side : Side)
    (price : ℚ) (qty tok : Int) :
    (∀ st : AgentComputeState, assocGet m.compute aid = some st →
      st.latency.jitter_ms = 0 → tok ≤ st.tokens →
      (1e-6 : ℚ) ≤ m.cfg.tick_duration_ms →
      (m.schedule_limit aid side price qty tok).latq.pq =
        insertIntent
          { arrival_t := m.t + max 1 ((st.latency.base_ms +
              (tok : ℚ) * st.latency.ms_per_token) / m.cfg.tick_duration_ms).ceil,
            seq := m.latq.seq + 1, intent_type := "limit", agent_id := aid,
            side := some side, price := some price, qty := some qty,
            tokens_used := tok,
            latency_ms := st.latency.base_ms + (tok : ℚ) * st.latency.ms_per_token }
          m.latq.pq ∧
      (m.schedule_market aid side qty tok).latq.pq =
        insertIntent
          { arrival_t := m.t + max 1 ((st.latency.base_ms +
              (tok : ℚ) * st.latency.ms_per_token) / m.cfg.tick_duration_ms).ceil,
            seq := m.latq.seq + 1, intent_type := "market", agent_id := aid,
            side := some side, price := none, qty := some qty,
            tokens_used := tok,
            latency_ms := st.latency.base_ms + (tok : ℚ) * st.latency.ms_per_token }
          m.latq.pq) ∧
    (assocGet m.compute aid = none →
      (m.schedule_limit aid side price qty tok).latq.pq =
        insertIntent
          { arrival_t := m.t, seq := m.latq.seq + 1, intent_type := "limit",
            agent_id := aid, side := some side, price := some price,
            qty := some qty, tokens_used := 0, latency_ms := 0 } m.latq.pq ∧
      (m.schedule_market aid side qty tok).latq.pq =
        insertIntent
          { arrival_t := m.t, seq := m.latq.seq + 1, intent_type := "market",
            agent_id := aid, side := some side, price := none,
            qty := some qty, tokens_used := 0, latency_ms := 0 } m.latq.pq) := by
  constructor
  · intro st hc hj ht htd
    have hcons : st.consume tok = (tok, false, { st with tokens := st.tokens - tok }) := by
      simp [AgentComputeState.consume, ht]
    have hmax : max (1e-6 : ℚ) m.cfg.tick_duration_ms = m.cfg.tick_duration_ms :=
      max_eq_right htd
    constructor <;>
      simp [Market.schedule_limit, Market.schedule_market, hc, hcons, hj,
        LatencyQueue.next_seq, LatencyQueue.push, hmax]
  · intro hc
    constructor <;>
      simp [Market.schedule_limit, Market.schedule_market, hc,
        LatencyQueue.next_seq, LatencyQueue.push]

/-- Witness for C9: with base 0.5 ms, 0.1 ms/token, 3 tokens granted and a
1 ms tick, latency is 0.8 ms and the intent arrives 1 tick later; an agent
without a compute profile gets arrival tick = current tick 0. -/
theorem C9_latency_and_arrival_witness :
    ((((Market.init {} ["a"]).set_agent_compute "a"
        { capacity_tokens := 100, refill_tokens := 100 }
        { base_ms := 1/2, ms_per_token := 1/10, jitter_ms := 0 }).schedule_limit
        "a" Side.BUY 100 1 3).latq.pq.map
          (fun i => (i.arrival_t, i.latency_ms)) = [(1, 4/5)]) ∧
    (((Market.init {} ["b"]).schedule_market "b" Side.SELL 2 0).latq.pq.map
        (fun i => i.arrival_t) = [0]) := by
  constructor
  · have h := ((C9_latency_and_arrival
      ((Market.init {} ["a"]).set_agent_compute "a"
        { capacity_tokens := 100, refill_tokens := 100 }
        { base_ms := 1/2, ms_per_token := 1/10, jitter_ms := 0 })
      "a" Side.BUY 100 1 3).1
      { tokens := 100, budget := { capacity_tokens := 100, refill_tokens := 100 },
        latency := { base_ms := 1/2, ms_per_token := 1/10, jitter_ms := 0 } }
      (by decide) rfl (by decide) (by decide)).1
    rw [h]
    decide
  · have h := ((C9_latency_and_arrival (Market.init {} ["b"])
      "b" Side.SELL 100 2 0).2 (by decide)).2
    rw [h]
    decide

/-- **C4.** For every trade applied by `_apply_trades` with distinct buyer
and seller and both fees configured to zero, the buyer's ledger entry gains
exactly `qty` inventory and pays exactly `price·qty` cash, and the seller's
entry loses exactly `qty` inventory and receives exactly `price·qty` cash. -/
theorem C4_trade_ledger_conservation (m : Market) (initiator : String) (tr : Trade)
    (hfee : m.cfg.fee_per_share = 0) (hfm : m.cfg.fee_per_message = 0)
    (hbs : tr.buy_agent_id ≠ tr.sell_agent_id) :
    assocGet (m.applyTradeOne initiator tr).agents tr.buy_agent_id =
      some { (assocGet m.agents tr.buy_agent_id).getD {} with
             inventory :=
               ((assocGet m.agents tr.buy_agent_id).getD {}).inventory + tr.qty,
             cash :=
               ((assocGet m.agents tr.buy_agent_id).getD {}).cash
                 - tr.price * tr.qty } ∧
    assocGet (m.applyTradeOne initiator tr).agents tr.sell_agent_id =
      some { (assocGet m.agents tr.sell_agent_id).getD {} with
             inventory :=
               ((assocGet m.agents tr.sell_agent_id).getD {}).inventory - tr.qty,
             cash :=
               ((assocGet m.agents tr.sell_agent_id).getD {}).cash
                 + tr.price * tr.qty } := by
  have hSB : tr.sell_agent_id ≠ tr.buy_agent_id := fun h => hbs h.symm
  have e1 : ∀ l, assocGet (ensureAgent l tr.buy_agent_id) tr.sell_agent_id =
      assocGet l tr.sell_agent_id := fun l => assocGet_ensureAgent_ne l hSB
  have e2 : ∀ l, assocGet (ensureAgent l tr.sell_agent_id) tr.buy_agent_id =
      assocGet l tr.buy_agent_id := fun l => assocGet_ensureAgent_ne l hbs
  have e3 : ∀ (l : List (String × AgentState)) (v : AgentState),
      assocGet (assocSet l tr.buy_agent_id v) tr.sell_agent_id =
      assocGet l tr.sell_agent_id := fun l v => assocGet_assocSet_ne l v hSB
  have e4 : ∀ (l : List (String × AgentState)) (v : AgentState),
      assocGet (assocSet l tr.sell_agent_id v) tr.buy_agent_id =
      assocGet l tr.buy_agent_id := fun l v => assocGet_assocSet_ne l v hbs
  simp only [Market.applyTradeOne, e1, e2, e3, e4, assocGet_ensureAgent_same,
    assocGet_assocSet_same, Option.getD_some]
  split_ifs with hb hs <;>
    simp [e1, e2, e3, e4, assocGet_ensureAgent_same,
      assocGet_assocSet_same, hfee]

/-- Witness for C4: on a fresh market with agents `a` (buyer) and `b`
(seller), applying one trade of 3 shares at price 10 moves exactly 3 shares
and 30 cash between the two ledger entries. -/
theorem C4_trade_ledger_conservation_witness :
    assocGet ((Market.init {} ["a", "b"]).applyTradeOne "a"
        { buy_order_id := -1, sell_order_id := 1, buy_agent_id := "a",
          sell_agent_id := "b", price := 10, qty := 3, ts := 1,
          buyer_limit := none, seller_limit := some 10 }).agents "a" =
      some { cash := 0 - 10 * 3, inventory := 0 + 3, last_value_price := none } ∧
    assocGet ((Market.init {} ["a", "b"]).applyTradeOne "a"
        { buy_order_id := -1, sell_order_id := 1, buy_agent_id := "a",
          sell_agent_id := "b", price := 10, qty := 3, ts := 1,
          buyer_limit := none, seller_limit := some 10 }).agents "b" =
      some { cash := 0 + 10 * 3, inventory := 0 - 3, last_value_price := none } := by
  have h := C4_trade_ledger_conservation (Market.init {} ["a", "b"]) "a"
    { buy_order_id := -1, sell_order_id := 1, buy_agent_id := "a",
      sell_agent_id := "b", price := 10, qty := 3, ts := 1,
      buyer_limit := none, seller_limit := some 10 }
    (by decide) (by decide) (by decide)
  constructor
  · rw [h.1]; decide
  · rw [h.2]; decide

/-- With the C1 `Trade` slip repaired, the engine does satisfy the spec's
price-time-priority scenario (SELL 100.00×5 by `s1`, SELL 100.00×5 by
`s2`, market BUY 7 by `b` → trades (s1,5,@100), (s2,2,@100), ask depth 3
owned by `s2`), and in general, when the front (= oldest) order of a level
queue has positive quantity no larger than the incoming marketable
quantity, matching first consumes that order in full — one complete trade,
its id popped — before the rest of the queue is touched.  This supports
classifying C2 as a bug of the code rather than of the claim; the claim
theorem `C2_scenario_raises_typeerror` below evaluates the source as
written at the same scenario. -/
theorem price_time_priority_repaired :
    (let ob2 : OrderBook :=
      (((OrderBook.empty (1/100)).place_limit
          { id := 1, agent_id := "s1", side := Side.SELL, price := some 100,
            qty := 5, ts := 1, is_market := false }).1.place_limit
          { id := 2, agent_id := "s2", side := Side.SELL, price := some 100,
            qty := 5, ts := 2, is_market := false }).1
     let r := ob2.place_market
          { id := 3, agent_id := "b", side := Side.BUY, price := none,
            qty := 7, ts := 3, is_market := true }
     r = ({ tick := 1/100,
            bids := [],
            asks := [{ price := 100,
                       queue := [{ id := 2, agent_id := "s2", side := Side.SELL,
                                   price := some 100, qty := 3, ts := 2,
                                   is_market := false }] }],
            id_index := [(2, 100, Side.SELL)] },
          Except.ok
            [{ buy_order_id := -1, sell_order_id := 1, buy_agent_id := "b",
               sell_agent_id := "s1", price := 100, qty := 5, ts := 3,
               buyer_limit := none, seller_limit := some 100 },
             { buy_order_id := -1, sell_order_id := 2, buy_agent_id := "b",
               sell_agent_id := "s2", price := 100, qty := 2, ts := 3,
               buyer_limit := none, seller_limit := some 100 }]) ∧
       r.1.depth_at_level 100 Side.SELL = 3) ∧
    (∀ (price : ℚ) (o1 : Order) (tl : List Order) (qty ts : Int)
        (take_side : Side) (agent : String) (lim : Option ℚ),
      0 < o1.qty → o1.qty ≤ qty →
      execQueue price (o1 :: tl) qty take_side ts agent lim =
        (mkTrade take_side price o1.qty ts agent lim o1 ::
           (execQueue price tl (qty - o1.qty) take_side ts agent lim).1,
         (execQueue price tl (qty - o1.qty) take_side ts agent lim).2.1,
         o1.id :: (execQueue price tl (qty - o1.qty) take_side ts agent lim).2.2.1,
         (execQueue price tl (qty - o1.qty) take_side ts agent lim).2.2.2)) := by
  refine ⟨⟨by decide, by decide⟩, ?_⟩
  intro price o1 tl qty ts take_side agent lim h1 h2
  have hq : ¬ qty ≤ 0 := by omega
  have hmin : min qty o1.qty = o1.qty := min_eq_right h2
  simp [execQueue, hq, hmin]

/-- **C2 (code bug).** At the claim's exact scenario the source raises
`TypeError` at the first `Trade(...)` construction of `_execute_against`
(the C1 slip): the two SELL limits rest normally (they never cross the
empty bid side), then the market BUY 7 errors out, produces no trades,
leaves the book unchanged, and the ask depth at 100.00 is still 10 — not
the two trades and depth 3 the claim describes. -/
theorem C2_scenario_raises_typeerror :
    (let ob2 : OrderBook :=
      (((OrderBook.empty (1/100)).place_limit_src
          { id := 1, agent_id := "s1", side := Side.SELL, price := some 100,
            qty := 5, ts := 1, is_market := false }).1.place_limit_src
          { id := 2, agent_id := "s2", side := Side.SELL, price := some 100,
            qty := 5, ts := 2, is_market := false }).1
     let r := ob2.place_market_src
          { id := 3, agent_id := "b", side := Side.BUY, price := none,
            qty := 7, ts := 3, is_market := true }
     r.2 = Except.error "TypeError" ∧ r.1 = ob2 ∧
       ob2.depth_at_level 100 Side.SELL = 10) := by
  refine ⟨by decide, by decide, by decide⟩

/-! ## Latency-queue ordering lemmas -/

theorem intentLE_total (a b : ScheduledIntent) : intentLE a b ∨ intentLE b a := by
  unfold intentLE; omega

theorem intentLE_trans {a b c : ScheduledIntent} (h1 : intentLE a b)
    (h2 : intentLE b c) : intentLE a c := by
  unfold intentLE at *; omega

theorem intentLE_arrival {a b : ScheduledIntent} (h : intentLE a b) :
    a.arrival_t ≤ b.arrival_t := by
  unfold intentLE at h; omega

theorem insertIntent_perm (x : ScheduledIntent) (l : List ScheduledIntent) :
    (insertIntent x l).Perm (x :: l) := by
  induction l with
  | nil => simp [insertIntent]
  | cons y ys ih =>
    by_cases h : intentLE x y
    · simp [insertIntent, h]
    · simp only [insertIntent, h, if_false]
      exact (ih.cons y).trans (List.Perm.swap x y ys)

theorem insertIntent_sorted (x : ScheduledIntent) {l : List ScheduledIntent}
    (h : l.Pairwise intentLE) : (insertIntent x l).Pairwise intentLE := by
  induction l with
  | nil => simp [insertIntent]
  | cons y ys ih =>
    rcases List.pairwise_cons.mp h with ⟨hy, hys⟩
    by_cases hle : intentLE x y
    · simp only [insertIntent, hle, if_true]
      refine List.pairwise_cons.mpr ⟨?_, h⟩
      intro z hz
      rcases List.mem_cons.mp hz with rfl | hz
      · exact hle
      · exact intentLE_trans hle (hy z hz)
    · have hyx : intentLE y x := (intentLE_total x y).resolve_left hle
      simp only [insertIntent, hle, if_false]
      refine List.pairwise_cons.mpr ⟨?_, ih hys⟩
      intro z hz
      have : z ∈ x :: ys := (insertIntent_perm x ys).mem_iff.mp hz
      rcases List.mem_cons.mp this with rfl | hz'
      · exact hyx
      · exact hy z hz'

theorem pushAll_pq_perm (l : List ScheduledIntent) : (pushAll l).pq.Perm l := by
  suffices h : ∀ (acc : LatencyQueue),
      (l.foldl (fun q it => q.push it) acc).pq.Perm (l ++ acc.pq) by
    simpa [pushAll] using h {}
  induction l with
  | nil => intro acc; simp
  | cons x xs ih =>
    intro acc
    have h1 := ih (acc.push x)
    refine h1.trans ?_
    have h2 : (acc.push x).pq.Perm (x :: acc.pq) := insertIntent_perm x acc.pq
    refine (List.Perm.append_left xs h2).trans ?_
    simpa using (@List.perm_middle _ x xs acc.pq)

theorem pushAll_pq_sorted (l : List ScheduledIntent) :
    (pushAll l).pq.Pairwise intentLE := by
  suffices h : ∀ (acc : LatencyQueue), acc.pq.Pairwise intentLE →
      (l.foldl (fun q it => q.push it) acc).pq.Pairwise intentLE by
    exact h {} (by simp)
  induction l with
  | nil => intro acc hacc; simpa using hacc
  | cons x xs ih =>
    intro acc hacc
    exact ih (acc.push x) (insertIntent_sorted x hacc)

theorem popReadyList_of_sorted {q : List ScheduledIntent} (t : Int)
    (h : q.Pairwise intentLE) :
    popReadyList q t =
      (q.filter (fun x => decide (x.arrival_t ≤ t)),
       q.filter (fun x => decide (¬ x.arrival_t ≤ t))) := by
  induction q with
  | nil => simp [popReadyList]
  | cons x xs ih =>
    rcases List.pairwise_cons.mp h with ⟨hx, hxs⟩
    by_cases hxt : x.arrival_t ≤ t
    · simp [popReadyList, hxt, ih hxs]
    · have hall : ∀ y ∈ xs, ¬ y.arrival_t ≤ t := by
        intro y hy
        have := intentLE_arrival (hx y hy)
        omega
      have h1 : (x :: xs).filter (fun y => decide (y.arrival_t ≤ t)) = [] := by
        simp only [List.filter_eq_nil]
        intro y hy
        rcases List.mem_cons.mp hy with rfl | hy
        · simpa using hxt
        · simpa using hall y hy
      have h2 : (x :: xs).filter (fun y => decide (¬ y.arrival_t ≤ t)) = x :: xs := by
        simp only [List.filter_eq_self]
        intro y hy
        rcases List.mem_cons.mp hy with rfl | hy
        · simpa using hxt
        · simpa using hall y hy
      simp only [popReadyList, hxt, if_false, h1, h2]

/-- **C8.** For a latency queue built by pushing intents with strictly
increasing sequence numbers (as `next_seq` produces), `pop_ready t` removes
and returns exactly the intents with arrival tick ≤ t, leaving exactly the
others, and the returned list is strictly sorted by (arrival tick, seq) —
so two intents with equal arrival tick come back in submission order; and
`pop_ready` on an empty queue returns the empty list unchanged. -/
theorem C8_pop_ready_order (l : List ScheduledIntent) (t : Int)
    (hseq : l.Pairwise (fun a b => a.seq < b.seq)) :
    (((pushAll l).pop_ready t).1.Perm
        (l.filter (fun x => decide (x.arrival_t ≤ t))) ∧
     ((pushAll l).pop_ready t).2.pq.Perm
        (l.filter (fun x => decide (¬ x.arrival_t ≤ t))) ∧
     ((pushAll l).pop_ready t).1.Pairwise intentLT) ∧
    (∀ q : LatencyQueue, q.pq = [] → q.pop_ready t = ([], q)) := by
  have hsorted := pushAll_pq_sorted l
  have hperm := pushAll_pq_perm l
  have hpop := popReadyList_of_sorted t hsorted
  have hne : (pushAll l).pq.Pairwise (fun a b => a.seq ≠ b.seq) := by
    refine (List.Perm.pairwise_iff ?_ hperm).mpr (hseq.imp Int.ne_of_lt)
    intro a b h
    exact h.symm
  refine ⟨⟨?_, ?_, ?_⟩, ?_⟩
  · simp only [LatencyQueue.pop_ready, hpop]
    exact hperm.filter _
  · simp only [LatencyQueue.pop_ready, hpop]
    exact hperm.filter _
  · simp only [LatencyQueue.pop_ready, hpop]
    have hsub : List.Sublist
        ((pushAll l).pq.filter (fun x => decide (x.arrival_t ≤ t)))
        (pushAll l).pq := List.filter_sublist _
    have h1 := hsorted.sublist hsub
    have h2 := hne.sublist hsub
    have h3 := List.Pairwise.and h1 h2
    exact h3.imp (fun hab => by
      rcases hab with ⟨hle, hne'⟩
      unfold intentLE at hle
      unfold intentLT
      omega)
  · intro q hq
    cases q with
    | mk pq seq => cases hq; simp [LatencyQueue.pop_ready, popReadyList]

/-- Witness for C8: four intents pushed with seqs 1..4, arrivals 2, 1, 2, 5;
popping at tick 2 returns (1,seq 2), (2,seq 1), (2,seq 3) — the two
arrival-2 intents in submission order — and leaves the arrival-5 intent. -/
theorem C8_pop_ready_order_witness :
    (let l : List ScheduledIntent :=
      [{ arrival_t := 2, seq := 1, intent_type := "limit", agent_id := "a" },
       { arrival_t := 1, seq := 2, intent_type := "market", agent_id := "b" },
       { arrival_t := 2, seq := 3, intent_type := "limit", agent_id := "c" },
       { arrival_t := 5, seq := 4, intent_type := "market", agent_id := "d" }]
     (((pushAll l).pop_ready 2).1.Perm
        (l.filter (fun x => decide (x.arrival_t ≤ 2))) ∧
      ((pushAll l).pop_ready 2).2.pq.Perm
        (l.filter (fun x => decide (¬ x.arrival_t ≤ 2))) ∧
      ((pushAll l).pop_ready 2).1.Pairwise intentLT) ∧
     (∀ q : LatencyQueue, q.pq = [] → q.pop_ready 2 = ([], q))) :=
  C8_pop_ready_order
    [{ arrival_t := 2, seq := 1, intent_type := "limit", agent_id := "a" },
     { arrival_t := 1, seq := 2, intent_type := "market", agent_id := "b" },
     { arrival_t := 2, seq := 3, intent_type := "limit", agent_id := "c" },
     { arrival_t := 5, seq := 4, intent_type := "market", agent_id := "d" }]
    2 (by decide)

/-! ## Book lemmas for the no-crossing invariant -/

theorem minLevel_none {side : List PriceLevel} :
    minLevel side = none ↔ side = [] := by
  cases side <;> simp [minLevel]

theorem maxLevel_none {side : List PriceLevel} :
    maxLevel side = none ↔ side = [] := by
  cases side <;> simp [maxLevel]

theorem minLevel_mem {side : List PriceLevel} {lvl : PriceLevel}
    (h : minLevel side = some lvl) : lvl ∈ side := by
  induction side with
  | nil => simp [minLevel] at h
  | cons l ls ih =>
    simp only [minLevel, Option.some.injEq] at h
    cases hm : minLevel ls with
    | none => rw [hm] at h; simp_all
    | some b =>
      rw [hm] at h
      by_cases hle : l.price ≤ b.price
      · simp [hle] at h; simp [← h]
      · simp [hle] at h
        exact List.mem_cons_of_mem _ (ih (h ▸ hm))

theorem maxLevel_mem {side : List PriceLevel} {lvl : PriceLevel}
    (h : maxLevel side = some lvl) : lvl ∈ side := by
  induction side with
  | nil => simp [maxLevel] at h
  | cons l ls ih =>
    simp only [maxLevel, Option.some.injEq] at h
    cases hm : maxLevel ls with
    | none => rw [hm] at h; simp_all
    | some b =>
      rw [hm] at h
      by_cases hle : b.price ≤ l.price
      · simp [hle] at h; simp [← h]
      · simp [hle] at h
        exact List.mem_cons_of_mem _ (ih (h ▸ hm))

theorem minLevel_le {side : List PriceLevel} :
    ∀ {b : PriceLevel}, minLevel side = some b → ∀ l ∈ side, b.price ≤ l.price := by
  induction side with
  | nil => intro b h; simp [minLevel] at h
  | cons hd tl ih =>
    intro b h
    simp only [minLevel, Option.some.injEq] at h
    cases hm : minLevel tl with
    | none =>
      rw [hm] at h
      have htl : tl = [] := minLevel_none.mp hm
      subst htl
      simp at h
      subst h
      intro l hl
      rcases List.mem_cons.mp hl with rfl | hl'
      · exact le_refl _
      · simp at hl'
    | some c =>
      rw [hm] at h
      by_cases hle : hd.price ≤ c.price
      · simp only [hle, if_true] at h
        subst h
        intro l hl
        rcases List.mem_cons.mp hl with rfl | hl'
        · exact le_refl _
        · exact le_trans hle (ih hm l hl')
      · simp only [hle, if_false] at h
        subst h
        push_neg at hle
        intro l hl
        rcases List.mem_cons.mp hl with rfl | hl'
        · exact le_of_lt hle
        · exact ih hm l hl'

theorem maxLevel_ge {side : List PriceLevel} :
    ∀ {b : PriceLevel}, maxLevel side = some b → ∀ l ∈ side, l.price ≤ b.price := by
  induction side with
  | nil => intro b h; simp [maxLevel] at h
  | cons hd tl ih =>
    intro b h
    simp only [maxLevel, Option.some.injEq] at h
    cases hm : maxLevel tl with
    | none =>
      rw [hm] at h
      have htl : tl = [] := maxLevel_none.mp hm
      subst htl
      simp at h
      subst h
      intro l hl
      rcases List.mem_cons.mp hl with rfl | hl'
      · exact le_refl _
      · simp at hl'
    | some c =>
      rw [hm] at h
      by_cases hle : c.price ≤ hd.price
      · simp only [hle, if_true] at h
        subst h
        intro l hl
        rcases List.mem_cons.mp hl with rfl | hl'
        · exact le_refl _
        · exact le_trans (ih hm l hl') hle
      · simp only [hle, if_false] at h
        subst h
        push_neg at hle
        intro l hl
        rcases List.mem_cons.mp hl with rfl | hl'
        · exact le_of_lt hle
        · exact ih hm l hl'

theorem eraseLevel_subset {side : List PriceLevel} {p : ℚ} {l : PriceLevel}
    (h : l ∈ eraseLevel side p) : l ∈ side := by
  induction side with
  | nil => simp [eraseLevel] at h
  | cons x xs ih =>
    by_cases hp : x.price = p
    · simp only [eraseLevel, hp, if_true] at h
      exact List.mem_cons_of_mem _ h
    · simp only [eraseLevel, hp, if_false] at h
      rcases List.mem_cons.mp h with rfl | h'
      · exact List.mem_cons_self _ _
      · exact List.mem_cons_of_mem _ (ih h')

theorem length_eraseLevel_lt {side : List PriceLevel} {p : ℚ}
    (h : ∃ l ∈ side, l.price = p) : (eraseLevel side p).length < side.length := by
  induction side with
  | nil => simp at h
  | cons l ls ih =>
    by_cases hp : l.price = p
    · simp [eraseLevel, hp]
    · simp only [eraseLevel, hp, if_false, List.length_cons]
      have hex : ∃ l ∈ ls, l.price = p := by
        rcases h with ⟨x, hx, hxp⟩
        rcases List.mem_cons.mp hx with h1 | h1
        · exact absurd (h1 ▸ hxp) hp
        · exact ⟨x, h1, hxp⟩
      exact Nat.succ_lt_succ (ih hex)

theorem updateLevel_price {side : List PriceLevel} {p : ℚ} {q : List Order}
    {l : PriceLevel} (h : l ∈ updateLevel side p q) :
    ∃ l0 ∈ side, l0.price = l.price := by
  unfold updateLevel at h
  rcases List.mem_map.mp h with ⟨l0, hl0, heq⟩
  subst heq
  refine ⟨l0, hl0, ?_⟩
  by_cases hp : l0.price = p <;> simp [hp]

theorem addResting_price {side : List PriceLevel} {p : ℚ} {o : Order}
    {l : PriceLevel} (h : l ∈ addResting side p o) :
    (∃ l0 ∈ side, l0.price = l.price) ∨ l.price = p := by
  unfold addResting at h
  cases hf : findLevel side p with
  | none =>
    rw [hf] at h
    rcases List.mem_append.mp h with h' | h'
    · exact Or.inl ⟨l, h', rfl⟩
    · simp at h'
      right
      rw [h']
  | some lvl =>
    rw [hf] at h
    rcases List.mem_map.mp h with ⟨l0, hl0, heq⟩
    subst heq
    left
    refine ⟨l0, hl0, ?_⟩
    by_cases hp : l0.price = p <;> simp [hp]

/-- Exit property of the `_execute_against` inner loop: when it leaves the
level queue nonempty, the remaining quantity is exhausted (≤ 0) — the
matching loops therefore stop right after. -/
theorem execQueue_exit (price : ℚ) (queue : List Order) (remaining : Int)
    (take_side : Side) (ts : Int) (agent : String) (lim : Option ℚ) :
    (execQueue price queue remaining take_side ts agent lim).2.1 = [] ∨
    (execQueue price queue remaining take_side ts agent lim).2.2.2 ≤ 0 := by
  induction queue generalizing remaining with
  | nil => simp [execQueue]
  | cons resting rest ih =>
    by_cases hr : remaining ≤ 0
    · simp [execQueue, hr]
    · by_cases ht : min remaining resting.qty = resting.qty
      · simpa [execQueue, hr, ht] using ih (remaining - resting.qty)
      · have hmin : min remaining resting.qty = remaining := by
          rcases min_choice remaining resting.qty with h | h
          · exact h
          · exact absurd h ht
        have ht2 : ¬ remaining = resting.qty := fun hh => ht (by rw [hmin, hh])
        simp [execQueue, hr, hmin, ht2]

/-- Every price level left by the ask-side matching loop sits at a price the
input side already had. -/
theorem matchAsksGo_keys (lp : Option ℚ) (ts : Int) (ag : String)
    (fuel : Nat) (asks : List PriceLevel) (rem : Int) :
    ∀ l ∈ (matchAsksGo lp ts ag fuel asks rem).2.2.1,
      ∃ l0 ∈ asks, l0.price = l.price := by
  induction fuel generalizing asks rem with
  | zero =>
    intro l hl
    simp only [matchAsksGo] at hl
    exact ⟨l, hl, rfl⟩
  | succ fuel ih =>
    intro l hl
    simp only [matchAsksGo] at hl
    by_cases hr : rem ≤ 0
    · rw [if_pos hr] at hl; exact ⟨l, hl, rfl⟩
    · rw [if_neg hr] at hl
      cases hm : minLevel asks with
      | none => rw [hm] at hl; exact ⟨l, hl, rfl⟩
      | some best =>
        rw [hm] at hl
        dsimp only at hl
        by_cases hb : buyBreaks lp best.price = true
        · rw [if_pos hb] at hl
          exact ⟨l, hl, rfl⟩
        · rw [if_neg hb] at hl
          by_cases hq :
              (executeAgainst best rem Side.BUY ts ag lp).2.1.queue.isEmpty = true
          · rw [if_pos hq] at hl
            rcases ih (eraseLevel asks best.price) _ l hl with ⟨l0, hl0, hp⟩
            exact ⟨l0, eraseLevel_subset hl0, hp⟩
          · rw [if_neg hq] at hl
            exact updateLevel_price hl

/-- Every price level left by the bid-side matching loop sits at a price the
input side already had. -/
theorem matchBidsGo_keys (lp : Option ℚ) (ts : Int) (ag : String)
    (fuel : Nat) (bids : List PriceLevel) (rem : Int) :
    ∀ l ∈ (matchBidsGo lp ts ag fuel bids rem).2.2.1,
      ∃ l0 ∈ bids, l0.price = l.price := by
  induction fuel generalizing bids rem with
  | zero =>
    intro l hl
    simp only [matchBidsGo] at hl
    exact ⟨l, hl, rfl⟩
  | succ fuel ih =>
    intro l hl
    simp only [matchBidsGo] at hl
    by_cases hr : rem ≤ 0
    · rw [if_pos hr] at hl; exact ⟨l, hl, rfl⟩
    · rw [if_neg hr] at hl
      cases hm : maxLevel bids with
      | none => rw [hm] at hl; exact ⟨l, hl, rfl⟩
      | some best =>
        rw [hm] at hl
        dsimp only at hl
        by_cases hb : sellBreaks lp best.price = true
        · rw [if_pos hb] at hl
          exact ⟨l, hl, rfl⟩
        · rw [if_neg hb] at hl
          by_cases hq :
              (executeAgainst best rem Side.SELL ts ag lp).2.1.queue.isEmpty = true
          · rw [if_pos hq] at hl
            rcases ih (eraseLevel bids best.price) _ l hl with ⟨l0, hl0, hp⟩
            exact ⟨l0, eraseLevel_subset hl0, hp⟩
          · rw [if_neg hq] at hl
            exact updateLevel_price hl

/-- `_execute_against` in terms of its queue loop. -/
theorem executeAgainst_eq (level : PriceLevel) (qty : Int) (side : Side)
    (ts : Int) (ag : String) (lim : Option ℚ) :
    executeAgainst level qty side ts ag lim =
      ((execQueue level.price level.queue qty side ts ag lim).1,
       { level with queue := (execQueue level.price level.queue qty side ts ag lim).2.1 },
       (execQueue level.price level.queue qty side ts ag lim).2.2.1,
       qty - (execQueue level.price level.queue qty side ts ag lim).2.2.2) := by
  unfold executeAgainst
  rcases h : execQueue level.price level.queue qty side ts ag lim with ⟨a, b, c, d⟩
  simp

/-- When the BUY matching loop stops with quantity still unfilled, every
remaining ask level is strictly above the order's limit price. -/
theorem matchAsksGo_bound (p : ℚ) (ts : Int) (ag : String) :
    ∀ (fuel : Nat) (asks : List PriceLevel) (rem : Int),
      asks.length ≤ fuel →
      0 < (matchAsksGo (some p) ts ag fuel asks rem).2.1 →
      ∀ l ∈ (matchAsksGo (some p) ts ag fuel asks rem).2.2.1, p < l.price := by
  intro fuel
  induction fuel with
  | zero =>
    intro asks rem hlen hrem l hl
    have hnil : asks = [] := List.length_eq_zero.mp (Nat.le_zero.mp hlen)
    subst hnil
    simp only [matchAsksGo] at hl
    simp at hl
  | succ fuel ih =>
    intro asks rem hlen hrem l hl
    simp only [matchAsksGo] at hrem hl
    by_cases hr : rem ≤ 0
    · rw [if_pos hr] at hrem; dsimp only at hrem; omega
    · rw [if_neg hr] at hrem hl
      cases hm : minLevel asks with
      | none =>
        have hnil : asks = [] := minLevel_none.mp hm
        subst hnil
        rw [hm] at hl
        simp at hl
      | some best =>
        rw [hm] at hrem hl
        dsimp only at hrem hl
        by_cases hb : buyBreaks (some p) best.price = true
        · rw [if_pos hb] at hl
          have hp : p < best.price := by simpa [buyBreaks] using hb
          exact lt_of_lt_of_le hp (minLevel_le hm l hl)
        · rw [if_neg hb] at hrem hl
          by_cases hq :
              (executeAgainst best rem Side.BUY ts ag (some p)).2.1.queue.isEmpty = true
          · rw [if_pos hq] at hrem hl
            have hlt := length_eraseLevel_lt ⟨best, minLevel_mem hm, rfl⟩
            have hlen' : (eraseLevel asks best.price).length ≤ fuel := by omega
            exact ih (eraseLevel asks best.price) _ hlen' hrem l hl
          · rw [if_neg hq] at hrem hl
            exfalso
            rw [executeAgainst_eq] at hrem hq
            rcases execQueue_exit best.price best.queue rem Side.BUY ts ag (some p)
              with hx | hx
            · simp [hx] at hq
            · simp only at hrem
              omega

/-- When the SELL matching loop stops with quantity still unfilled, every
remaining bid level is strictly below the order's limit price. -/
theorem matchBidsGo_bound (p : ℚ) (ts : Int) (ag : String) :
    ∀ (fuel : Nat) (bids : List PriceLevel) (rem : Int),
      bids.length ≤ fuel →
      0 < (matchBidsGo (some p) ts ag fuel bids rem).2.1 →
      ∀ l ∈ (matchBidsGo (some p) ts ag fuel bids rem).2.2.1, l.price < p := by
  intro fuel
  induction fuel with
  | zero =>
    intro bids rem hlen hrem l hl
    have hnil : bids = [] := List.length_eq_zero.mp (Nat.le_zero.mp hlen)
    subst hnil
    simp only [matchBidsGo] at hl
    simp at hl
  | succ fuel ih =>
    intro bids rem hlen hrem l hl
    simp only [matchBidsGo] at hrem hl
    by_cases hr : rem ≤ 0
    · rw [if_pos hr] at hrem; dsimp only at hrem; omega
    · rw [if_neg hr] at hrem hl
      cases hm : maxLevel bids with
      | none =>
        have hnil : bids = [] := maxLevel_none.mp hm
        subst hnil
        rw [hm] at hl
        simp at hl
      | some best =>
        rw [hm] at hrem hl
        dsimp only at hrem hl
        by_cases hb : sellBreaks (some p) best.price = true
        · rw [if_pos hb] at hl
          have hp : best.price < p := by simpa [sellBreaks] using hb
          exact lt_of_le_of_lt (maxLevel_ge hm l hl) hp
        · rw [if_neg hb] at hrem hl
          by_cases hq :
              (executeAgainst best rem Side.SELL ts ag (some p)).2.1.queue.isEmpty = true
          · rw [if_pos hq] at hrem hl
            have hlt := length_eraseLevel_lt ⟨best, maxLevel_mem hm, rfl⟩
            have hlen' : (eraseLevel bids best.price).length ≤ fuel := by omega
            exact ih (eraseLevel bids best.price) _ hlen' hrem l hl
          · rw [if_neg hq] at hrem hl
            exfalso
            rw [executeAgainst_eq] at hrem hq
            rcases execQueue_exit best.price best.queue rem Side.SELL ts ag (some p)
              with hx | hx
            · simp [hx] at hq
            · simp only at hrem
              omega

theorem place_limit_noCross (ob : OrderBook) (o : Order) (h : NoCross ob) :
    NoCross (ob.place_limit o).1 := by
  unfold OrderBook.place_limit
  by_cases hm : o.is_market = true
  · rw [if_pos hm]; exact h
  · rw [if_neg hm]
    cases hp : o.price with
    | none => exact h
    | some p =>
      dsimp only
      by_cases hc : OrderBook.conform_price ob.tick p = false
      · rw [if_pos hc]; exact h
      · rw [if_neg hc]
        cases hs : o.side with
        | BUY =>
          dsimp only
          by_cases hrem :
              0 < (matchAsks ob.asks o.qty (some p) o.ts o.agent_id).2.1
          · rw [if_pos hrem]
            intro b hb a ha
            dsimp only at hb ha
            rcases addResting_price hb with ⟨b0, hb0, hb0p⟩ | hbp
            · rcases matchAsksGo_keys (some p) o.ts o.agent_id _ _ _ a ha
                with ⟨a0, ha0, ha0p⟩
              rw [← hb0p, ← ha0p]
              exact h b0 hb0 a0 ha0
            · rw [hbp]
              exact matchAsksGo_bound p o.ts o.agent_id ob.asks.length ob.asks
                o.qty (le_refl _) hrem a ha
          · rw [if_neg hrem]
            intro b hb a ha
            dsimp only at hb ha
            rcases matchAsksGo_keys (some p) o.ts o.agent_id _ _ _ a ha
              with ⟨a0, ha0, ha0p⟩
            rw [← ha0p]
            exact h b hb a0 ha0
        | SELL =>
          dsimp only
          by_cases hrem :
              0 < (matchBids ob.bids o.qty (some p) o.ts o.agent_id).2.1
          · rw [if_pos hrem]
            intro b hb a ha
            dsimp only at hb ha
            rcases addResting_price ha with ⟨a0, ha0, ha0p⟩ | hap
            · rcases matchBidsGo_keys (some p) o.ts o.agent_id _ _ _ b hb
                with ⟨b0, hb0, hb0p⟩
              rw [← hb0p, ← ha0p]
              exact h b0 hb0 a0 ha0
            · rw [hap]
              exact matchBidsGo_bound p o.ts o.agent_id ob.bids.length ob.bids
                o.qty (le_refl _) hrem b hb
          · rw [if_neg hrem]
            intro b hb a ha
            dsimp only at hb ha
            rcases matchBidsGo_keys (some p) o.ts o.agent_id _ _ _ b hb
              with ⟨b0, hb0, hb0p⟩
            rw [← hb0p]
            exact h b0 hb0 a ha

theorem place_market_noCross (ob : OrderBook) (o : Order) (h : NoCross ob) :
    NoCross (ob.place_market o).1 := by
  unfold OrderBook.place_market
  by_cases hm : o.is_market = false
  · rw [if_pos hm]; exact h
  · rw [if_neg hm]
    cases o.side with
    | BUY =>
      intro b hb a ha
      dsimp only at hb ha
      rcases matchAsksGo_keys none o.ts o.agent_id _ _ _ a ha with ⟨a0, ha0, ha0p⟩
      rw [← ha0p]
      exact h b hb a0 ha0
    | SELL =>
      intro b hb a ha
      dsimp only at hb ha
      rcases matchBidsGo_keys none o.ts o.agent_id _ _ _ b hb with ⟨b0, hb0, hb0p⟩
      rw [← hb0p]
      exact h b0 hb0 a ha

theorem cancel_noCross (ob : OrderBook) (oid : Int) (h : NoCross ob) :
    NoCross (ob.cancel oid).1 := by
  unfold OrderBook.cancel
  cases hi : idxLookup ob.id_index oid with
  | none => exact h
  | some pr =>
    rcases pr with ⟨price, side⟩
    dsimp only
    cases side with
    | BUY =>
      cases hf : findLevel ob.bids price with
      | none => exact h
      | some lvl =>
        dsimp only
        by_cases hrm : (removeFirstById lvl.queue oid).2 = true <;>
          [rw [if_pos hrm]; rw [if_neg hrm]] <;>
        · intro b hb a ha
          dsimp only at hb ha
          by_cases he : (removeFirstById lvl.queue oid).1.isEmpty = true
          · rw [if_pos he] at hb
            exact h b (eraseLevel_subset hb) a ha
          · rw [if_neg he] at hb
            rcases updateLevel_price hb with ⟨b0, hb0, hb0p⟩
            rw [← hb0p]
            exact h b0 hb0 a ha
    | SELL =>
      cases hf : findLevel ob.asks price with
      | none => exact h
      | some lvl =>
        dsimp only
        by_cases hrm : (removeFirstById lvl.queue oid).2 = true <;>
          [rw [if_pos hrm]; rw [if_neg hrm]] <;>
        · intro b hb a ha
          dsimp only at hb ha
          by_cases he : (removeFirstById lvl.queue oid).1.isEmpty = true
          · rw [if_pos he] at ha
            exact h b hb a (eraseLevel_subset ha)
          · rw [if_neg he] at ha
            rcases updateLevel_price ha with ⟨a0, ha0, ha0p⟩
            rw [← ha0p]
            exact h b hb a0 ha0

theorem applyBookOp_noCross (ob : OrderBook) (op : BookOp) (h : NoCross ob) :
    NoCross (applyBookOp ob op) := by
  cases op with
  | limit o => exact place_limit_noCross ob o h
  | market o => exact place_market_noCross ob o h
  | cancel oid => exact cancel_noCross ob oid h

theorem runBookOps_noCross (tick : ℚ) (ops : List BookOp) :
    NoCross (runBookOps tick ops) := by
  have hgen : ∀ ob, NoCross ob → NoCross (ops.foldl applyBookOp ob) := by
    induction ops with
    | nil => intro ob h; exact h
    | cons op ops ih => intro ob h; exact ih _ (applyBookOp_noCross ob op h)
  exact hgen _ (by intro b hb a ha; simp [OrderBook.empty] at hb)

/-- The no-crossing invariant over the repaired-intent engine (supporting
result; the claim theorem `C3_no_crossed_book` below is proved over the
faithful-to-source engine). -/
theorem runBookOps_top_not_crossed (tick : ℚ) (ops : List BookOp) (bb ba : ℚ)
    (h : (runBookOps tick ops).top_of_book = (some bb, some ba)) : bb < ba := by
  have hnc := runBookOps_noCross tick ops
  unfold OrderBook.top_of_book at h
  have h1 : (runBookOps tick ops).best_bid.map (·.price) = some bb :=
    congrArg Prod.fst h
  have h2 : (runBookOps tick ops).best_ask.map (·.price) = some ba :=
    congrArg Prod.snd h
  rcases Option.map_eq_some'.mp h1 with ⟨lb, hlb, hlbp⟩
  rcases Option.map_eq_some'.mp h2 with ⟨la, hla, hlap⟩
  rw [← hlbp, ← hlap]
  exact hnc lb (maxLevel_mem hlb) la (minLevel_mem hla)

/-! ## The no-crossing invariant over the faithful-to-source engine -/

/-- The source's BUY matching loop only ever deletes (empty) levels. -/
theorem sweepAsksSrc_subset (lp : Option ℚ) :
    ∀ (fuel : Nat) (asks : List PriceLevel) (rem : Int),
      ∀ l ∈ (sweepAsksSrc lp fuel asks rem).1, l ∈ asks := by
  intro fuel
  induction fuel with
  | zero => intro asks rem l hl; simpa [sweepAsksSrc] using hl
  | succ fuel ih =>
    intro asks rem l hl
    simp only [sweepAsksSrc] at hl
    by_cases hr : rem ≤ 0
    · rw [if_pos hr] at hl; exact hl
    · rw [if_neg hr] at hl
      cases hm : minLevel asks with
      | none => rw [hm] at hl; exact hl
      | some best =>
        rw [hm] at hl
        dsimp only at hl
        by_cases hb : buyBreaks lp best.price = true
        · rw [if_pos hb] at hl; exact hl
        · rw [if_neg hb] at hl
          by_cases hq : best.queue.isEmpty = true
          · rw [if_pos hq] at hl
            exact eraseLevel_subset (ih (eraseLevel asks best.price) rem l hl)
          · rw [if_neg hq] at hl; exact hl

/-- The source's SELL matching loop only ever deletes (empty) levels. -/
theorem sweepBidsSrc_subset (lp : Option ℚ) :
    ∀ (fuel : Nat) (bids : List PriceLevel) (rem : Int),
      ∀ l ∈ (sweepBidsSrc lp fuel bids rem).1, l ∈ bids := by
  intro fuel
  induction fuel with
  | zero => intro bids rem l hl; simpa [sweepBidsSrc] using hl
  | succ fuel ih =>
    intro bids rem l hl
    simp only [sweepBidsSrc] at hl
    by_cases hr : rem ≤ 0
    · rw [if_pos hr] at hl; exact hl
    · rw [if_neg hr] at hl
      cases hm : maxLevel bids with
      | none => rw [hm] at hl; exact hl
      | some best =>
        rw [hm] at hl
        dsimp only at hl
        by_cases hb : sellBreaks lp best.price = true
        · rw [if_pos hb] at hl; exact hl
        · rw [if_neg hb] at hl
          by_cases hq : best.queue.isEmpty = true
          · rw [if_pos hq] at hl
            exact eraseLevel_subset (ih (eraseLevel bids best.price) rem l hl)
          · rw [if_neg hq] at hl; exact hl

/-- When the source's BUY loop exits without raising and quantity was
positive, every remaining ask level is strictly above the limit price. -/
theorem sweepAsksSrc_bound (p : ℚ) :
    ∀ (fuel : Nat) (asks : List PriceLevel) (rem : Int),
      asks.length ≤ fuel →
      (sweepAsksSrc (some p) fuel asks rem).2 = false → 0 < rem →
      ∀ l ∈ (sweepAsksSrc (some p) fuel asks rem).1, p < l.price := by
  intro fuel
  induction fuel with
  | zero =>
    intro asks rem hlen _ _ l hl
    have hnil : asks = [] := List.length_eq_zero.mp (Nat.le_zero.mp hlen)
    subst hnil
    simp [sweepAsksSrc] at hl
  | succ fuel ih =>
    intro asks rem hlen hraise hrem l hl
    simp only [sweepAsksSrc] at hraise hl
    by_cases hr : rem ≤ 0
    · omega
    · rw [if_neg hr] at hraise hl
      cases hm : minLevel asks with
      | none =>
        have hnil : asks = [] := minLevel_none.mp hm
        subst hnil
        rw [hm] at hl
        simp at hl
      | some best =>
        rw [hm] at hraise hl
        dsimp only at hraise hl
        by_cases hb : buyBreaks (some p) best.price = true
        · rw [if_pos hb] at hl
          have hp : p < best.price := by simpa [buyBreaks] using hb
          exact lt_of_lt_of_le hp (minLevel_le hm l hl)
        · rw [if_neg hb] at hraise hl
          by_cases hq : best.queue.isEmpty = true
          · rw [if_pos hq] at hraise hl
            have hlt := length_eraseLevel_lt ⟨best, minLevel_mem hm, rfl⟩
            have hlen2 : (eraseLevel asks best.price).length ≤ fuel := by omega
            exact ih (eraseLevel asks best.price) rem hlen2 hraise hrem l hl
          · rw [if_neg hq] at hraise
            simp at hraise

/-- When the source's SELL loop exits without raising and quantity was
positive, every remaining bid level is strictly below the limit price. -/
theorem sweepBidsSrc_bound (p : ℚ) :
    ∀ (fuel : Nat) (bids : List PriceLevel) (rem : Int),
      bids.length ≤ fuel →
      (sweepBidsSrc (some p) fuel bids rem).2 = false → 0 < rem →
      ∀ l ∈ (sweepBidsSrc (some p) fuel bids rem).1, l.price < p := by
  intro fuel
  induction fuel with
  | zero =>
    intro bids rem hlen _ _ l hl
    have hnil : bids = [] := List.length_eq_zero.mp (Nat.le_zero.mp hlen)
    subst hnil
    simp [sweepBidsSrc] at hl
  | succ fuel ih =>
    intro bids rem hlen hraise hrem l hl
    simp only [sweepBidsSrc] at hraise hl
    by_cases hr : rem ≤ 0
    · omega
    · rw [if_neg hr] at hraise hl
      cases hm : maxLevel bids with
      | none =>
        have hnil : bids = [] := maxLevel_none.mp hm
        subst hnil
        rw [hm] at hl
        simp at hl
      | some best =>
        rw [hm] at hraise hl
        dsimp only at hraise hl
        by_cases hb : sellBreaks (some p) best.price = true
        · rw [if_pos hb] at hl
          have hp : best.price < p := by simpa [sellBreaks] using hb
          exact lt_of_le_of_lt (maxLevel_ge hm l hl) hp
        · rw [if_neg hb] at hraise hl
          by_cases hq : best.queue.isEmpty = true
          · rw [if_pos hq] at hraise hl
            have hlt := length_eraseLevel_lt ⟨best, maxLevel_mem hm, rfl⟩
            have hlen2 : (eraseLevel bids best.price).length ≤ fuel := by omega
            exact ih (eraseLevel bids best.price) rem hlen2 hraise hrem l hl
          · rw [if_neg hq] at hraise
            simp at hraise

theorem place_limit_src_noCross (ob : OrderBook) (o : Order) (h : NoCross ob) :
    NoCross (ob.place_limit_src o).1 := by
  unfold OrderBook.place_limit_src
  by_cases hm : o.is_market = true
  · rw [if_pos hm]; exact h
  · rw [if_neg hm]
    cases hp : o.price with
    | none => exact h
    | some p =>
      dsimp only
      by_cases hc : OrderBook.conform_price ob.tick p = false
      · rw [if_pos hc]; exact h
      · rw [if_neg hc]
        cases o.side with
        | BUY =>
          dsimp only
          by_cases hraise : (sweepAsksSrc (some p) ob.asks.length ob.asks o.qty).2 = true
          · rw [if_pos hraise]
            intro b hb a ha
            dsimp only at hb ha
            exact h b hb a (sweepAsksSrc_subset (some p) _ _ _ a ha)
          · rw [if_neg hraise]
            by_cases hq : 0 < o.qty
            · rw [if_pos hq]
              intro b hb a ha
              dsimp only at hb ha
              rcases addResting_price hb with ⟨b0, hb0, hb0p⟩ | hbp
              · rw [← hb0p]
                exact h b0 hb0 a (sweepAsksSrc_subset (some p) _ _ _ a ha)
              · rw [hbp]
                exact sweepAsksSrc_bound p ob.asks.length ob.asks o.qty
                  (le_refl _) (by simpa using hraise) hq a ha
            · rw [if_neg hq]
              intro b hb a ha
              dsimp only at hb ha
              exact h b hb a (sweepAsksSrc_subset (some p) _ _ _ a ha)
        | SELL =>
          dsimp only
          by_cases hraise : (sweepBidsSrc (some p) ob.bids.length ob.bids o.qty).2 = true
          · rw [if_pos hraise]
            intro b hb a ha
            dsimp only at hb ha
            exact h b (sweepBidsSrc_subset (some p) _ _ _ b hb) a ha
          · rw [if_neg hraise]
            by_cases hq : 0 < o.qty
            · rw [if_pos hq]
              intro b hb a ha
              dsimp only at hb ha
              rcases addResting_price ha with ⟨a0, ha0, ha0p⟩ | hap
              · rw [← ha0p]
                exact h b (sweepBidsSrc_subset (some p) _ _ _ b hb) a0 ha0
              · rw [hap]
                exact sweepBidsSrc_bound p ob.bids.length ob.bids o.qty
                  (le_refl _) (by simpa using hraise) hq b hb
            · rw [if_neg hq]
              intro b hb a ha
              dsimp only at hb ha
              exact h b (sweepBidsSrc_subset (some p) _ _ _ b hb) a ha

theorem place_market_src_noCross (ob : OrderBook) (o : Order) (h : NoCross ob) :
    NoCross (ob.place_market_src o).1 := by
  unfold OrderBook.place_market_src
  by_cases hm : o.is_market = false
  · rw [if_pos hm]; exact h
  · rw [if_neg hm]
    cases o.side with
    | BUY =>
      intro b hb a ha
      dsimp only at hb ha
      exact h b hb a (sweepAsksSrc_subset none _ _ _ a ha)
    | SELL =>
      intro b hb a ha
      dsimp only at hb ha
      exact h b (sweepBidsSrc_subset none _ _ _ b hb) a ha

theorem applyBookOpSrc_noCross (ob : OrderBook) (op : BookOp) (h : NoCross ob) :
    NoCross (applyBookOpSrc ob op) := by
  cases op with
  | limit o => exact place_limit_src_noCross ob o h
  | market o => exact place_market_src_noCross ob o h
  | cancel oid => exact cancel_noCross ob oid h

theorem runBookOpsSrc_noCross (tick : ℚ) (ops : List BookOp) :
    NoCross (runBookOpsSrc tick ops) := by
  have hgen : ∀ ob, NoCross ob → NoCross (ops.foldl applyBookOpSrc ob) := by
    induction ops with
    | nil => intro ob h; exact h
    | cons op ops ih => intro ob h; exact ih _ (applyBookOpSrc_noCross ob op h)
  exact hgen _ (by intro b hb a ha; simp [OrderBook.empty] at hb)

/-- **C3.** After any sequence of `place_limit`, `place_market` and `cancel`
operations starting from the empty book — run through the engine exactly
as the source executes it, where any placement whose matching loop reaches
a nonempty opposite level raises `TypeError` without consuming liquidity
(see C1/C2) — whenever `top_of_book` reports both a best bid and a best
ask, the best bid is strictly below the best ask (and since best bid is
the maximal bid price and best ask the minimal ask price, no bid price
reaches any resting ask price).  The same invariant holds for the
repaired-intent engine (`runBookOps_top_not_crossed`). -/
theorem C3_no_crossed_book (tick : ℚ) (ops : List BookOp) (bb ba : ℚ)
    (h : (runBookOpsSrc tick ops).top_of_book = (some bb, some ba)) : bb < ba := by
  have hnc := runBookOpsSrc_noCross tick ops
  unfold OrderBook.top_of_book at h
  have h1 : (runBookOpsSrc tick ops).best_bid.map (·.price) = some bb :=
    congrArg Prod.fst h
  have h2 : (runBookOpsSrc tick ops).best_ask.map (·.price) = some ba :=
    congrArg Prod.snd h
  rcases Option.map_eq_some'.mp h1 with ⟨lb, hlb, hlbp⟩
  rcases Option.map_eq_some'.mp h2 with ⟨la, hla, hlap⟩
  rw [← hlbp, ← hlap]
  exact hnc lb (maxLevel_mem hlb) la (minLevel_mem hla)

/-- Witness for C3: after resting a BUY at 99 and a SELL at 101 (tick 1,
neither placement crossing, so neither raising), the book reports both
sides and 99 < 101. -/
theorem C3_no_crossed_book_witness : (99 : ℚ) < 101 :=
  C3_no_crossed_book 1
    [BookOp.limit { id := 1, agent_id := "b1", side := Side.BUY,
                    price := some 99, qty := 5, ts := 0, is_market := false },
     BookOp.limit { id := 2, agent_id := "a1", side := Side.SELL,
                    price := some 101, qty := 5, ts := 0, is_market := false }]
    99 101 (by decide)

end Sim
